import Mathlib

/-! A verification development for `ganigeorgiev/date`.

The package `date` (src/date.go) wraps a `time.Time` of the Go standard
library and keeps only its calendar date.  Every operation of the package is
a one-line call into package `time`, so the development has two layers:

* `namespace time`: the parts of Go's package `time` that `date.go` calls
  (`time.Date`, `time.Parse` and `Time.Format` for the layout `2006-01-02`,
  the accessors, the comparisons, `Time.Sub`, `Duration.Hours`), written after
  the library's own algorithms (`norm`, `daysSinceEpoch`, `absDate`, `getnum`,
  `atoi`, `skip`, `appendInt`, ...);
* `namespace date`: the package itself, one definition per function of
  `src/date.go`.

Conventions of the embedding.

* Go's `int` is the 64-bit integer of the platforms Go is commonly built
  for, and the library counts days and seconds in `uint64` and `int64`.  An
  integer of the program is an `Int` together with the conversion that
  stores it: `wrap64` after every operation on an `int` or `int64`, `uint64`
  after every operation on a `uint64`.  So a date whose instant lies beyond
  what the 64-bit counters hold wraps around here as it does in the program.
  The calendar algorithms are those of `time.go` as it stood up to Go 1.22
  (`norm`, `daysSinceEpoch`, `absDate`).
* A `time.Time` is the pair of `t.sec()` (seconds since January 1, year 1,
  00:00:00 UTC, an `int64`) and `t.nsec()` together with its location
  pointer; none of the instants built here carries a monotonic clock
  reading.
* A Go `string` and a `[]byte` are modelled by `GoString`, the strings of
  the prover; the parser only ever inspects ASCII digits and the hyphen.
* A `float64` is modelled by `F64`, a mantissa and a binary exponent; every
  float operation computes the exact result and rounds it to 53 significant
  bits, ties to even.  The values that occur are 0 or lie between 1e-14 and
  1e19 in absolute value, far inside the normal numbers of `float64`, so
  infinities, NaN and subnormal numbers are left out.
* A method with a pointer receiver (`Scan`, `UnmarshalText`) takes the
  receiver's old value and returns its new value next to the error.
-/

/-- A Go `string` (and, by the convention above, a `[]byte`). -/
abbrev GoString := String

namespace time

/-! ## Constants of package time -/

/-- A `time.Month`; Go declares it as `type Month int`. -/
abbrev Month := Int

def January : Month := 1
def February : Month := 2
def March : Month := 3
def April : Month := 4
def May : Month := 5
def June : Month := 6
def July : Month := 7
def August : Month := 8
def September : Month := 9
def October : Month := 10
def November : Month := 11
def December : Month := 12

def secondsPerMinute : Int := 60
def secondsPerHour : Int := 60 * secondsPerMinute
def secondsPerDay : Int := 24 * secondsPerHour
def daysPer400Years : Int := 365 * 400 + 97
def daysPer100Years : Int := 365 * 100 + 24
def daysPer4Years : Int := 365 * 4 + 1

/-- The year of the absolute epoch: `absoluteZeroYear = -292277022399`. -/
def absoluteZeroYear : Int := -292277022399

/-- The constant `absoluteToInternal`, which Go computes as
`int64((absoluteZeroYear - internalYear) * 365.2425 * secondsPerDay)`. -/
def absoluteToInternal : Int := -9223371966579724800

def internalToAbsolute : Int := -absoluteToInternal

/-- The constant `unixToInternal`: seconds from year 1 to 1970. -/
def unixToInternal : Int :=
  (1969 * 365 + 1969 / 4 - 1969 / 100 + 1969 / 400) * secondsPerDay

def internalToUnix : Int := -unixToInternal

/-- The value of an integer expression after it is stored in an `int64`, or
in an `int`, which has 64 bits. -/
def wrap64 (x : Int) : Int := (x + 2 ^ 63) % 2 ^ 64 - 2 ^ 63

/-- The value of an integer expression after it is stored in a `uint64`. -/
def uint64 (x : Int) : Int := x % 2 ^ 64

/-- The table `daysBefore`: `daysBefore[m]` counts the days of a non-leap
year before month `m+1`. -/
def daysBeforeTable : List Int :=
  [0, 31, 31 + 28, 31 + 28 + 31, 31 + 28 + 31 + 30, 31 + 28 + 31 + 30 + 31,
   31 + 28 + 31 + 30 + 31 + 30, 31 + 28 + 31 + 30 + 31 + 30 + 31,
   31 + 28 + 31 + 30 + 31 + 30 + 31 + 31,
   31 + 28 + 31 + 30 + 31 + 30 + 31 + 31 + 30,
   31 + 28 + 31 + 30 + 31 + 30 + 31 + 31 + 30 + 31,
   31 + 28 + 31 + 30 + 31 + 30 + 31 + 31 + 30 + 31 + 30,
   31 + 28 + 31 + 30 + 31 + 30 + 31 + 31 + 30 + 31 + 30 + 31]

/-- Indexing `daysBefore[i]`. -/
def daysBefore (i : Int) : Int := daysBeforeTable.getD i.toNat 0

/-- The function `isLeap`: `year%4 == 0 && (year%100 != 0 || year%400 == 0)`,
with Go's truncating remainder. -/
def isLeap (year : Int) : Bool :=
  year.tmod 4 == 0 && (year.tmod 100 != 0 || year.tmod 400 == 0)

/-- The function `daysIn`: the number of days of month `m` in `year`. -/
def daysIn (m : Month) (year : Int) : Int :=
  if m == February && isLeap year then 29
  else daysBefore m - daysBefore (m - 1)

/-- The function `norm`: `norm hi lo base` carries `lo` into `hi` so that
`0 <= nlo < base`.  All operands are `int`s. -/
def norm (hi lo base : Int) : Int × Int :=
  let (hi, lo) :=
    if lo < 0 then
      let n := wrap64 (wrap64 ((wrap64 (wrap64 (-lo) - 1)).tdiv base) + 1)
      (wrap64 (hi - n), wrap64 (lo + wrap64 (n * base)))
    else (hi, lo)
  if lo >= base then
    let n := wrap64 (lo.tdiv base)
    (wrap64 (hi + n), wrap64 (lo - wrap64 (n * base)))
  else (hi, lo)

/-- The function `daysSinceEpoch`: days from the absolute epoch to the
first day of `year`.  The year is counted from the absolute epoch in a
`uint64`, `y := uint64(int64(year) - absoluteZeroYear)`, and so is the
result. -/
def daysSinceEpoch (year : Int) : Int :=
  let y := uint64 (wrap64 (year - absoluteZeroYear))
  -- Add in days from 400-year cycles.
  let n := y / 400
  let y := uint64 (y - uint64 (400 * n))
  let d := uint64 (daysPer400Years * n)
  -- Add in 100-year cycles.
  let n := y / 100
  let y := uint64 (y - uint64 (100 * n))
  let d := uint64 (d + uint64 (daysPer100Years * n))
  -- Add in 4-year cycles.
  let n := y / 4
  let y := uint64 (y - uint64 (4 * n))
  let d := uint64 (d + uint64 (daysPer4Years * n))
  -- Add in non-leap years.
  let n := y
  uint64 (d + uint64 (365 * n))

/-! ## Locations and instants -/

/-- A `time.Location`: the offset (seconds east of UTC) in force before the
first transition, and the transitions as pairs of the Unix time at which a
new offset takes effect and that offset, in increasing order of time. -/
structure Location where
  name : GoString
  initial : Int
  tx : List (Int × Int)
deriving DecidableEq, Repr

/-- The offset that `l.lookup(sec)` reports for the Unix time `sec`: the
offset of the last transition that is not after `sec`. -/
def Location.lookup (l : Location) (sec : Int) : Int :=
  l.tx.foldl (fun off tr => if tr.1 ≤ sec then tr.2 else off) l.initial

/-- A `time.Time`.  `sec` is `t.sec()`, the seconds since January 1, year 1,
00:00:00 UTC (the `int64` field `ext`), and `nsec` is `t.nsec()`.  `loc` is
the location pointer, where `none` is the nil pointer that the library stores
for UTC. -/
structure Time where
  sec : Int
  nsec : Int
  loc : Option Location
deriving DecidableEq, Repr

/-- The zero value `time.Time{}`. -/
def Time.zero : Time := { sec := 0, nsec := 0, loc := none }

/-- The method `t.unixSec()`. -/
def Time.unixSec (t : Time) : Int := wrap64 (t.sec + internalToUnix)

/-- The method `t.abs()`: seconds since the absolute epoch, shifted by the
zone offset of the location of `t`, as a `uint64`:
`uint64(sec + (unixToInternal + internalToAbsolute))`. -/
def Time.abs (t : Time) : Int :=
  let sec := t.unixSec
  let sec :=
    match t.loc with
    | none => sec
    | some l => wrap64 (sec + l.lookup sec)
  uint64 (wrap64 (sec + (unixToInternal + internalToAbsolute)))

/-- The function `time.Date` called with the location `time.UTC`, which is
the only way `date.go` calls it.  The zone lookup of UTC reports offset 0,
and `setLoc(&utcLoc)` stores the nil pointer.  The parameters are `int`s (an
argument is first brought into that type); the day count `d` and the second
count `abs` are `uint64`s, and `unix` and the stored second are `int64`s. -/
def Date (year : Int) (month : Month) (day hour min sec nsec : Int) : Time :=
  let year := wrap64 year
  let month := wrap64 month
  let day := wrap64 day
  let hour := wrap64 hour
  let min := wrap64 min
  let sec := wrap64 sec
  let nsec := wrap64 nsec
  -- Normalize month, overflowing into year.
  let m := wrap64 (month - 1)
  let (year, m) := norm year m 12
  let month := wrap64 (m + 1)
  -- Normalize nsec, sec, min, hour, overflowing into day.
  let (sec, nsec) := norm sec nsec 1000000000
  let (min, sec) := norm min sec 60
  let (hour, min) := norm hour min 60
  let (day, hour) := norm day hour 24
  -- Compute days since the absolute epoch.
  let d := daysSinceEpoch year
  -- Add in days before this month.
  let d := uint64 (d + uint64 (daysBefore (wrap64 (month - 1))))
  let d := if isLeap year && month >= March then uint64 (d + 1) else d
  -- Add in days before today.
  let d := uint64 (d + uint64 (wrap64 (day - 1)))
  -- Add in time elapsed today.
  let abs := uint64 (d * secondsPerDay)
  let abs := uint64 (abs + uint64 (wrap64 (wrap64 (wrap64 (hour * secondsPerHour)
    + wrap64 (min * secondsPerMinute)) + sec)))
  let unix := wrap64 (wrap64 abs + (absoluteToInternal + internalToUnix))
  { sec := wrap64 (unix + unixToInternal), nsec := nsec, loc := none }

/-- The first half of `absDate`, which is all it runs when `full` is
false: the year of the absolute time `abs` and the day within that year,
counted from 0.  The argument is a `uint64`, as `Time.abs` returns it; the
quotients and differences below then stay between 0 and `abs`, and the year
count `y`, below 6e11, turns without loss into the `int` that is returned. -/
def absYearDay (abs : Int) : Int × Int :=
  -- Split into time and day.
  let d := abs / secondsPerDay
  -- Account for 400 year cycles.
  let n := d / daysPer400Years
  let y := 400 * n
  let d := d - daysPer400Years * n
  -- Cut off 100-year cycles; on the last day of the last cycle the quotient
  -- is 4 instead of 3, which subtracting n>>2 cuts off.
  let n := d / daysPer100Years
  let n := n - n / 4
  let y := y + 100 * n
  let d := d - daysPer100Years * n
  -- Cut off 4-year cycles.
  let n := d / daysPer4Years
  let y := y + 4 * n
  let d := d - daysPer4Years * n
  -- Cut off years within a 4-year cycle; again n>>2 cuts off the quotient 4
  -- of the last day of the cycle.
  let n := d / 365
  let n := n - n / 4
  let y := y + n
  let d := d - 365 * n
  (y + absoluteZeroYear, d)

/-- The function `absDate abs full`: year, month, day and day of the year
(counted from 0) of the absolute time `abs`.  With `full = false` only the
year and the day of the year are computed. -/
def absDate (abs : Int) (full : Bool) : Int × Month × Int × Int :=
  let (year, yday) := absYearDay abs
  if !full then (year, 0, 0, yday)
  else
    let day := yday
    if isLeap year && day == 31 + 29 - 1 then
      -- Leap day.
      (year, February, 29, yday)
    else
      -- After leap day; pretend it wasn't there.
      let day := if isLeap year && day > 31 + 29 - 1 then day - 1 else day
      -- Estimate month on assumption that every month has 31 days.
      -- The estimate may be too low by at most one month, so adjust.
      let month := day / 31
      let stop := daysBefore (month + 1)
      let (month, start) :=
        if day >= stop then (month + 1, stop) else (month, daysBefore month)
      (year, month + 1, day - start + 1, yday)

/-- The method `t.Date()`: year, month and day of `t` in its location. -/
def Time.Date (t : Time) : Int × Month × Int :=
  let r := absDate t.abs true
  (r.1, r.2.1, r.2.2.1)

def Time.Year (t : Time) : Int := (absDate t.abs false).1
def Time.Month (t : Time) : Month := (absDate t.abs true).2.1
def Time.Day (t : Time) : Int := (absDate t.abs true).2.2.1

/-- The method `t.Hour()`. -/
def Time.Hour (t : Time) : Int := (t.abs % secondsPerDay) / secondsPerHour
/-- The method `t.Minute()`. -/
def Time.Minute (t : Time) : Int := (t.abs % secondsPerHour) / secondsPerMinute
/-- The method `t.Second()`. -/
def Time.Second (t : Time) : Int := t.abs % secondsPerMinute
/-- The method `t.Nanosecond()`. -/
def Time.Nanosecond (t : Time) : Int := t.nsec

/-- The location `time.UTC`. -/
def UTC : Location := { name := "UTC", initial := 0, tx := [] }

/-- The method `t.Location()`: the nil pointer stands for UTC. -/
def Time.Location (t : Time) : Location :=
  match t.loc with
  | none => UTC
  | some l => l

/-- The method `t.IsZero()`. -/
def Time.IsZero (t : Time) : Bool := t.sec == 0 && t.nsec == 0

/-- The method `t.Before(u)` for instants without monotonic clock reading. -/
def Time.Before (t u : Time) : Bool :=
  decide (t.sec < u.sec) || (t.sec == u.sec && decide (t.nsec < u.nsec))

/-- The method `t.After(u)` for instants without monotonic clock reading. -/
def Time.After (t u : Time) : Bool :=
  decide (t.sec > u.sec) || (t.sec == u.sec && decide (t.nsec > u.nsec))

/-- The method `t.Equal(u)` for instants without monotonic clock reading. -/
def Time.Equal (t u : Time) : Bool := t.sec == u.sec && t.nsec == u.nsec

/-! ## Durations -/

/-- A `time.Duration`: a count of nanoseconds held in an `int64`. -/
abbrev Duration := Int

def Nanosecond : Duration := 1
def Second : Duration := 1000000000 * Nanosecond
def Hour : Duration := 3600 * Second

def minDuration : Duration := -(2 ^ 63)
def maxDuration : Duration := 2 ^ 63 - 1

/-- The method `t.addSec(d)` for an instant without monotonic clock
reading: the sum of the `int64`s `t.ext` and `d`, replaced by the largest or
the smallest second when the sum overflows. -/
def Time.addSec (t : Time) (d : Int) : Time :=
  -- Check if the sum of t.ext and d overflows and handle it properly.
  let sum := wrap64 (t.sec + d)
  if decide (sum > t.sec) == decide (d > 0) then { t with sec := sum }
  else if d > 0 then { t with sec := 2 ^ 63 - 1 }
  else { t with sec := -(2 ^ 63 - 1) }

/-- The method `t.Add(d)`.  The nanoseconds are `int32`s below 2e9 in
absolute value, which cannot overflow. -/
def Time.Add (t : Time) (d : Duration) : Time :=
  let dsec := d.tdiv 1000000000
  let nsec := t.nsec + d.tmod 1000000000
  let (dsec, nsec) :=
    if nsec >= 1000000000 then (dsec + 1, nsec - 1000000000)
    else if nsec < 0 then (dsec - 1, nsec + 1000000000)
    else (dsec, nsec)
  { t with nsec := nsec }.addSec dsec

/-- The method `t.Sub(u)` for instants without monotonic clock reading: the
duration `t-u`, or `maxDuration` (`minDuration`) when `t-u` exceeds what a
`Duration` can hold. -/
def Time.Sub (t u : Time) : Duration :=
  let d := wrap64 (wrap64 (wrap64 (t.sec - u.sec) * time.Second) + wrap64 (t.nsec - u.nsec))
  -- Check for overflow or underflow.
  if (u.Add d).Equal t then d -- d is correct
  else if t.Before u then minDuration -- t - u is negative out of range
  else maxDuration -- t - u is positive out of range

/-! ## Floating point -/

/-- A finite `float64`: the number `m * 2^e`. -/
structure F64 where
  m : Int
  e : Int
deriving DecidableEq, Repr

/-- The number a `float64` stands for. -/
def F64.toRat (x : F64) : ℚ := (x.m : ℚ) * (2 : ℚ) ^ x.e

/-- The integer nearest to `num / den`, the even one of the two when
`num / den` lies halfway between them. -/
def roundHalfEven (num den : Nat) : Nat :=
  let q := num / den
  let r := num % den
  if 2 * r < den then q
  else if den < 2 * r then q + 1
  else if q % 2 = 0 then q
  else q + 1

/-- The loop of `log2`; the first argument bounds the number of rounds. -/
def log2Loop : Nat → Nat → Nat
  | 0, _ => 0
  | fuel + 1, n => if n ≥ 2 then log2Loop fuel (n / 2) + 1 else 0

/-- The binary logarithm of `n`, rounded down: the position of the leading
bit of `n`. -/
def log2 (n : Nat) : Nat := log2Loop n n

/-- The `float64` nearest to the fraction `p / q` (with `q > 0`), ties to
even: with `2^l <= |p / q| < 2^(l+1)` the fraction is rounded to a multiple
of `2^(l-52)`, which leaves 53 significant bits. -/
def F64.round (p : Int) (q : Nat) : F64 :=
  if p = 0 then ⟨0, 0⟩
  else
    let a := p.natAbs
    let l : Int := (log2 a : Int) - (log2 q : Int)
    let l := if q * 2 ^ l.toNat ≤ a * 2 ^ (-l).toNat then l else l - 1
    let e := l - 52
    let m := roundHalfEven (a * 2 ^ (-e).toNat) (q * 2 ^ e.toNat)
    ⟨if p < 0 then -(m : Int) else (m : Int), e⟩

/-- The conversion `float64(i)` of an integer. -/
def F64.ofInt (i : Int) : F64 := F64.round i 1

/-- The quotient `x / y` of two `float64`s, for `y` other than 0. -/
def F64.div (x y : F64) : F64 :=
  F64.round ((if y.m < 0 then -x.m else x.m) * 2 ^ (x.e - y.e).toNat)
    (y.m.natAbs * 2 ^ (y.e - x.e).toNat)

/-- The sum `x + y` of two `float64`s. -/
def F64.add (x y : F64) : F64 :=
  let e := min x.e y.e
  F64.round ((x.m * 2 ^ (x.e - e).toNat + y.m * 2 ^ (y.e - e).toNat) * 2 ^ e.toNat)
    (2 ^ (-e).toNat)

/-- The method `d.Hours()`: `float64(d / Hour) + float64(d % Hour)/(60*60*1e9)`
with Go's truncating quotient and remainder. -/
def Duration.Hours (d : Duration) : F64 :=
  let hour := d.tdiv Hour
  let nsec := d.tmod Hour
  F64.add (F64.ofInt hour) (F64.div (F64.ofInt nsec) (F64.ofInt (60 * 60 * 1000000000)))

/-! ## Parsing and formatting with the layout `2006-01-02` -/

/-- The layout that `date.go` passes to `time.Parse` and `Time.Format`. -/
def layoutISO : GoString := "2006-01-02"

/-- A `*time.ParseError`. -/
structure ParseError where
  Layout : GoString
  Value : GoString
  LayoutElem : GoString
  ValueElem : GoString
  Message : GoString
deriving DecidableEq, Repr

/-- The function `isDigit`: is there an ASCII digit at index `i` of `s`. -/
def isDigit (s : List Char) (i : Nat) : Bool :=
  match s.get? i with
  | none => false
  | some c => decide ('0'.toNat ≤ c.toNat) && decide (c.toNat ≤ '9'.toNat)

/-- The value `int(c - '0')` of a digit. -/
def digitVal (c : Char) : Int := (c.toNat : Int) - ('0'.toNat : Int)

/-- The function `getnum`: a one or two digit number at the start of `s` and
the rest of `s`; with `fixed` the number must have two digits.  `none` is
`errBad`. -/
def getnum (s : List Char) (fixed : Bool) : Option (Int × List Char) :=
  if !isDigit s 0 then none
  else if !isDigit s 1 then
    if fixed then none
    else some (digitVal (s.getD 0 '0'), s.drop 1)
  else some (digitVal (s.getD 0 '0') * 10 + digitVal (s.getD 1 '0'), s.drop 2)

/-- The loop of `leadingInt`: consume the leading `[0-9]*` of `s`, starting
from the value `x`; `none` is `errLeadingInt` (the value left the `int64`). -/
def leadingIntLoop : List Char → Int → Option (Int × List Char)
  | [], x => some (x, [])
  | c :: s, x =>
    if c.toNat < '0'.toNat || c.toNat > '9'.toNat then some (x, c :: s)
    else if x > (2 ^ 63 - 1) / 10 then none
    else
      let x := wrap64 (x * 10 + (c.toNat : Int) - ('0'.toNat : Int))
      if x < 0 then none else leadingIntLoop s x

/-- The function `leadingInt`. -/
def leadingInt (s : List Char) : Option (Int × List Char) := leadingIntLoop s 0

/-- The function `atoi`: an optional sign and then digits only.  `none` is
`atoiError`. -/
def atoi (s : List Char) : Option Int :=
  let (neg, s) :=
    match s with
    | c :: rest => if c == '-' || c == '+' then (c == '-', rest) else (false, s)
    | [] => (false, s)
  match leadingInt s with
  | none => none
  | some (q, rem) =>
    if !rem.isEmpty then none
    else some (if neg then -q else q)

/-- The function `skip` for a prefix without spaces, as are the prefixes of
the layout `2006-01-02` (the empty prefix and `-`): every character of the
prefix must be matched by the value.  `none` is `errBad`. -/
def skip : List Char → List Char → Option (List Char)
  | value, [] => some value
  | [], _ :: _ => none
  | v :: value, p :: pre => if v != p then none else skip value pre

/-- The UTF-8 bytes of a character. -/
def utf8Bytes (c : Char) : List Nat :=
  let n := c.toNat
  if n < 128 then [n]
  else if n < 2048 then [192 + n / 64, 128 + n % 64]
  else if n < 65536 then [224 + n / 4096, 128 + n / 64 % 64, 128 + n % 64]
  else [240 + n / 262144, 128 + n / 4096 % 64, 128 + n / 64 % 64, 128 + n % 64]

/-- The hexadecimal digit of a number below 16. -/
def lowerhex (n : Nat) : Char := "0123456789abcdef".data.getD n '0'

/-- The function `quote`: the text between double quotes, with a backslash
in front of a double quote or a backslash, and with every byte of a control
character or of a character beyond ASCII written as a backslash, `x` and two
hexadecimal digits. -/
def quote (s : List Char) : List Char :=
  let esc := Char.ofNat 92
  let dq := Char.ofNat 34
  dq :: (s.flatMap fun c =>
    if c.toNat ≥ 128 || c.toNat < ' '.toNat then
      (utf8Bytes c).flatMap fun b => [esc, 'x', lowerhex (b / 16), lowerhex (b % 16)]
    else if c == dq || c == esc then [esc, c]
    else [c]) ++ [dq]

/-- The call `time.Parse("2006-01-02", value)`.  The layout has the chunks
`2006` (stdLongYear), `-`, `01` (stdZeroMonth), `-`, `02` (stdZeroDay); no
zone is parsed, so the result is built by `Date` in UTC.  On failure the
zero `Time` is returned with the error. -/
def ParseDate (value : GoString) : Time × Option ParseError :=
  let fail (layoutElem : GoString) (valueElem : List Char) (msg : GoString) :
      Time × Option ParseError :=
    (Time.zero, some ⟨layoutISO, value, layoutElem, String.mk valueElem, msg⟩)
  let v := value.data
  -- stdLongYear
  if v.length < 4 || !isDigit v 0 then fail "2006" v ""
  else
    let p := v.take 4
    let v := v.drop 4
    match atoi p with
    | none => fail "2006" value.data ""
    | some year =>
      -- prefix "-", then stdZeroMonth
      match skip v ['-'] with
      | none => fail "-" v ""
      | some v =>
        match getnum v true with
        | none => fail "01" v ""
        | some (month, v) =>
          if month <= 0 || 12 < month then fail "01" v ": month out of range"
          else
            -- prefix "-", then stdZeroDay
            match skip v ['-'] with
            | none => fail "-" v ""
            | some v =>
              match getnum v true with
              | none => fail "02" v ""
              | some (day, v) =>
                -- end of the layout
                if v.length != 0 then
                  fail "" v (": extra text: " ++ String.mk (quote v))
                -- Validate the day of the month.
                else if day < 1 || day > daysIn month year then
                  fail "" v ": day out of range"
                else (Date year month day 0 0 0 0, none)

/-- The loop of `appendInt` that assembles the decimal digits of `u` in
front of `buf`, last digit first.  The first argument bounds the number of
rounds; `u` rounds are always enough. -/
def appendIntLoop : Nat → Nat → List Char → List Char
  | 0, u, buf => Char.ofNat ('0'.toNat + u) :: buf
  | fuel + 1, u, buf =>
    if u ≥ 10 then
      let q := u / 10
      appendIntLoop fuel q (Char.ofNat ('0'.toNat + (u - q * 10)) :: buf)
    else Char.ofNat ('0'.toNat + u) :: buf

/-- The function `appendInt`: append the decimal form of `x` to `b`, with a
leading `-` for a negative `x` and the digits padded with zeros on the left
to at least `width` digits. -/
def appendInt (b : List Char) (x : Int) (width : Nat) : List Char :=
  let (b, u) := if x < 0 then (b ++ ['-'], (-x).toNat) else (b, x.toNat)
  -- Assemble decimal in reverse order.
  let buf := appendIntLoop u u []
  -- Add 0-padding.
  b ++ List.replicate (width - buf.length) '0' ++ buf

/-- The call `t.Format("2006-01-02")`: the year with at least four digits,
the month and the day with at least two digits, separated by `-`. -/
def Time.FormatDate (t : Time) : GoString :=
  let (year, month, day, _) := absDate t.abs true
  let b := appendInt [] year 4
  let b := b ++ ['-']
  let b := appendInt b month 2
  let b := b ++ ['-']
  let b := appendInt b day 2
  String.mk b

/-! ## Definitions used to state the properties of the library -/

/-- The integers that an `int64` (and an `int`) holds. -/
def isInt64 (x : Int) : Prop := -(2 ^ 63) ≤ x ∧ x < 2 ^ 63

instance (x : Int) : Decidable (isInt64 x) := by
  unfold isInt64
  infer_instance

/-- The number of days from the first day of the absolute epoch year to the
first day of `year` in the proleptic Gregorian calendar: 365 for each year
and one more for each leap year between them. -/
def yearStart (year : Int) : Int :=
  let y := year - absoluteZeroYear
  365 * y + y / 4 - y / 100 + y / 400

/-- The number of the day `(y, m, d)` counted from the absolute epoch, for a
month `m` in 1..12 and any integer `d`. -/
def dayNumber (y m d : Int) : Int :=
  yearStart y + daysBefore (m - 1) + (if isLeap y && m >= March then 1 else 0) + (d - 1)

/-- The second half of `absDate` on its own: month and day of the month of
the day `yday` (counted from 0) of a leap or a common year. -/
def monthDay (leap : Bool) (yday : Int) : Int × Int :=
  if leap && yday == 31 + 29 - 1 then (February, 29)
  else
    let day := if leap && yday > 31 + 29 - 1 then yday - 1 else yday
    let month := day / 31
    let stop := daysBefore (month + 1)
    let (month, start) :=
      if day >= stop then (month + 1, stop) else (month, daysBefore month)
    (month + 1, day - start + 1)

/-- A month in 1..12 with a day in 1..daysIn(month, year). -/
def validDate (y m d : Int) : Prop :=
  1 ≤ m ∧ m ≤ 12 ∧ 1 ≤ d ∧ d ≤ daysIn m y

/-- An instant at midnight UTC of a day that the library can count: no
nanoseconds, the nil location, and a whole number `n` of days since the
absolute epoch whose seconds fit the `uint64` of `Time.abs`. -/
def Midnight (t : Time) (n : Int) : Prop :=
  t.nsec = 0 ∧ t.loc = none ∧ 0 ≤ n ∧ n * secondsPerDay < 2 ^ 64 ∧
    t.sec = wrap64 (n * secondsPerDay + absoluteToInternal)

/-- Two integers of the same sign: both positive, both negative or both
zero. -/
def SameSign (a b : Int) : Prop := (0 < a ↔ 0 < b) ∧ (a < 0 ↔ b < 0) ∧ (a = 0 ↔ b = 0)

/-- The arguments `(y, m, d)` of `time.Date` whose day the library can
count: they are `int`s, the year `y + (m-1)/12` that the month carries into
is not before the absolute epoch year -292277022399, and the number of the
day, counted from the absolute epoch, is not negative and its seconds fit a
`uint64`.  These are the days from -292277022399-01-01 to
292277026854-11-09. -/
def Representable (y m d : Int) : Prop :=
  isInt64 y ∧ isInt64 m ∧ isInt64 (m - 1) ∧ isInt64 d ∧
    absoluteZeroYear ≤ y + (m - 1) / 12 ∧
    0 ≤ dayNumber (y + (m - 1) / 12) ((m - 1) % 12 + 1) d ∧
    dayNumber (y + (m - 1) / 12) ((m - 1) % 12 + 1) d * secondsPerDay < 2 ^ 64

instance (y m d : Int) : Decidable (Representable y m d) := by
  unfold Representable
  infer_instance

end time

namespace date

/-! ## The package `date` (src/date.go) -/

/-- Date specifies a date without time (only year, month and day).
Internally it represents a `time.Time` instant with zero UTC time parts. -/
structure Date where
  t : time.Time
deriving DecidableEq, Repr

/-- A Go `error` as returned by the package: the `*time.ParseError` of
`time.Parse`, or the error that `Scan` builds with `fmt.Errorf`. -/
inductive Error where
  | parse (e : time.ParseError)
  | errorf (msg : GoString)
deriving DecidableEq, Repr

/-- The dynamic value handed to `Scan` as an `interface{}`: `nil`, a
`[]byte`, a `string`, a `time.Time`, or a value of any other type, of which
only the text that `%T %+v` prints is kept. -/
inductive ScanValue where
  | null
  | bytes (v : GoString)
  | string (v : GoString)
  | time (v : time.Time)
  | other (printed : GoString)
deriving DecidableEq, Repr

/-- NewDate creates a new date instance from the provided year, month and
day. -/
def NewDate (year : Int) (month : time.Month) (day : Int) : Date :=
  { t := time.Date year month day 0 0 0 0 }

/-- Parse parses a formatted string and returns the date value it
represents. -/
def Parse (s : GoString) : Date × Option Error :=
  let (t, err) := time.ParseDate s
  ({ t := t }, err.map Error.parse)

/-- String returns a string representing the date instant in ISO 8601
extended format. -/
def Date.String (d : Date) : GoString := d.t.FormatDate

/-- IsZero reports whether d represents the zero date instant, year 1,
January 1. -/
def Date.IsZero (d : Date) : Bool := d.t.IsZero

/-- Day returns the day of the month specified by d. -/
def Date.Day (d : Date) : Int := d.t.Day

/-- Month returns the month of the year specified by d. -/
def Date.Month (d : Date) : time.Month := d.t.Month

/-- Year returns the year in which d occurs. -/
def Date.Year (d : Date) : Int := d.t.Year

/-- Before reports whether the date instant d is before d2. -/
def Date.Before (d d2 : Date) : Bool := d.t.Before d2.t

/-- After reports whether the date instant d is after d2. -/
def Date.After (d d2 : Date) : Bool := d.t.After d2.t

/-- Equal reports whether the date instant d is equal to d2: it compares
the year, month and day of the two instants. -/
def Date.Equal (d d2 : Date) : Bool :=
  let (d1Year, d1Month, d1Day) := d.t.Date
  let (d2Year, d2Month, d2Day) := d2.t.Date
  d1Year == d2Year && d1Month == d2Month && d1Day == d2Day

/-- Sub returns the duration d-d2 in days: `d.t.Sub(d2.t).Hours() / 24`. -/
def Date.Sub (d d2 : Date) : time.F64 :=
  time.F64.div (d.t.Sub d2.t).Hours (time.F64.ofInt 24)

/-- Scan parses a value (usually from db).  The result is the new value of
the receiver and the returned error. -/
def Date.Scan (_d : Date) (v : ScanValue) : Date × Option Error :=
  match v with
  | ScanValue.null => ({ t := time.Time.zero }, none)
  | ScanValue.bytes v =>
    if v.length > 0 then
      let (t, err) := time.ParseDate v
      ({ t := t }, err.map Error.parse)
    else ({ t := time.Time.zero }, none)
  | ScanValue.string v =>
    if v != "" then
      let (t, err) := time.ParseDate v
      ({ t := t }, err.map Error.parse)
    else ({ t := time.Time.zero }, none)
  | ScanValue.time v =>
    let (year, month, day) := v.Date
    ({ t := time.Date year month day 0 0 0 0 }, none)
  | ScanValue.other printed =>
    ({ t := time.Time.zero },
      some (Error.errorf (printed ++ " is not a meaningful date")))

/-- Value converts the instant to a `time.Time`; the error is always nil. -/
def Date.Value (d : Date) : time.Time × Option Error := (d.t, none)

/-- MarshalText implements the encoding.TextMarshaler interface. -/
def Date.MarshalText (d : Date) : GoString × Option Error := (d.String, none)

/-- UnmarshalText implements the encoding.TextUnmarshaler interface. -/
def Date.UnmarshalText (d : Date) (data : GoString) : Date × Option Error :=
  d.Scan (ScanValue.bytes data)

/-- The zero value `Date{}`. -/
def Date.zero : Date := { t := time.Time.zero }

/-! ## Definitions used to state the properties -/

/-- The dates that a client of the package can hold without leaving the
days the library can count: the zero value, the results of `NewDate` on
representable arguments and of `Parse`, and what `Scan` or `UnmarshalText`
leave in a receiver, whatever their input and whether or not they fail. -/
inductive Reachable : Date → Prop where
  | zero : Reachable Date.zero
  | newDate (year : Int) (month : time.Month) (day : Int) :
      time.Representable year month day → Reachable (NewDate year month day)
  | parse (s : GoString) : Reachable (Parse s).1
  | scan (d : Date) (v : ScanValue) : Reachable d → Reachable (d.Scan v).1
  | unmarshalText (d : Date) (data : GoString) :
      Reachable d → Reachable (d.UnmarshalText data).1

/-- The civil date of `d` as the triple of its accessors. -/
def Date.civil (d : Date) : Int × Int × Int := (d.Year, d.Month, d.Day)

/-- The lexicographic order on triples (year, month, day). -/
def lexLt (a b : Int × Int × Int) : Prop :=
  a.1 < b.1 ∨ (a.1 = b.1 ∧ (a.2.1 < b.2.1 ∨ (a.2.1 = b.2.1 ∧ a.2.2 < b.2.2)))

instance (a b : Int × Int × Int) : Decidable (lexLt a b) := by
  unfold lexLt
  infer_instance

/-- Is `c` one of the ASCII digits. -/
def isAsciiDigit (c : Char) : Bool := decide ('0'.toNat ≤ c.toNat) && decide (c.toNat ≤ '9'.toNat)

/-- The strings `YYYY-MM-DD` that name a real calendar date: ten characters,
digits except for a hyphen at the fifth and the eighth place, the month in
1..12 and the day in 1..daysIn(month, year). -/
def isISODate (s : GoString) : Bool :=
  match s.data with
  | [y1, y2, y3, y4, h1, m1, m2, h2, d1, d2] =>
    let year := time.digitVal y1 * 1000 + time.digitVal y2 * 100 + time.digitVal y3 * 10
      + time.digitVal y4
    let month := time.digitVal m1 * 10 + time.digitVal m2
    let day := time.digitVal d1 * 10 + time.digitVal d2
    isAsciiDigit y1 && isAsciiDigit y2 && isAsciiDigit y3 && isAsciiDigit y4
      && h1 == '-' && isAsciiDigit m1 && isAsciiDigit m2
      && h2 == '-' && isAsciiDigit d1 && isAsciiDigit d2
      && decide (1 ≤ month) && decide (month ≤ 12)
      && decide (1 ≤ day) && decide (day ≤ time.daysIn month year)
  | _ => false

/-- The month before month `m` of year `y`, as a pair (year, month):
December of `y-1` when `m` is January. -/
def prevMonth (y m : Int) : Int × Int :=
  if m = time.January then (y - 1, time.December) else (y, m - 1)

/-- The number of days of year `y` that lie before its month `m`: the sum
of the lengths of the months `1, ..., m-1`. -/
def daysBeforeMonth (y m : Int) : Int :=
  ((List.range (m - 1).toNat).map (fun i => time.daysIn ((i : Int) + 1) y)).sum

/-- The ordinal of the civil date `(y, m, d)` in the proleptic Gregorian
calendar, counted in days from 0001-01-01: 365 days for each earlier year,
one more for each earlier leap year, the days of the earlier months of the
year, and the days of the month before `d`. -/
def civilOrdinal (c : Int × Int × Int) : Int :=
  let y := c.1 - 1
  365 * y + y / 4 - y / 100 + y / 400 + daysBeforeMonth c.1 c.2.1 + (c.2.2 - 1)

/-- The signed whole number of calendar days from the date `b` to the date
`a`. -/
def calendarDays (a b : Date) : Int := civilOrdinal a.civil - civilOrdinal b.civil

/-- The decimal digits of `n`, padded with zeros on the left to at least
`width` digits. -/
def zeroPad (width n : Nat) : List Char :=
  List.replicate (width - (Nat.toDigits 10 n).length) '0' ++ Nat.toDigits 10 n

/-- The text of the civil date `(y, m, d)`: a leading `-` when the year is
negative, the absolute year zero-padded to at least 4 digits, `-`, the month
zero-padded to 2 digits, `-`, the day zero-padded to 2 digits. -/
def renderISO (y m d : Int) : GoString :=
  String.mk ((if y < 0 then ['-'] else []) ++ zeroPad 4 y.natAbs ++ ['-']
    ++ zeroPad 2 m.natAbs ++ ['-'] ++ zeroPad 2 d.natAbs)

/-- The inputs for which `Scan` is said to report an error: a non-empty
string or byte sequence that `Parse` rejects, or a value that is none of
null, string, byte sequence and timestamp. -/
def scanRejects (v : ScanValue) : Prop :=
  match v with
  | ScanValue.null => False
  | ScanValue.bytes s => s ≠ "" ∧ (Parse s).2 ≠ none
  | ScanValue.string s => s ≠ "" ∧ (Parse s).2 ≠ none
  | ScanValue.time _ => False
  | ScanValue.other _ => True

end date


namespace time

/-! ## The 64-bit integers -/

theorem wrap64_of_isInt64 (x : Int) (h : isInt64 x) : wrap64 x = x := by
  unfold isInt64 at h
  unfold wrap64
  omega

theorem wrap64_isInt64 (x : Int) : isInt64 (wrap64 x) := by
  unfold isInt64 wrap64
  omega

theorem wrap64_zero : wrap64 0 = 0 := by decide

theorem wrap64_small (x : Int) (h0 : 0 ≤ x) (h1 : x < 2 ^ 63) : wrap64 x = x := by
  simp only [wrap64]
  omega

theorem wrap64_range (x : Int) : -(2 ^ 63) ≤ wrap64 x ∧ wrap64 x < 2 ^ 63 := by
  simp only [wrap64]
  omega

theorem wrap64_id (x : Int) (h0 : -(2 ^ 63) ≤ x) (h1 : x < 2 ^ 63) : wrap64 x = x := by
  simp only [wrap64]
  omega

theorem uint64_add_left (a b : Int) : uint64 (uint64 a + b) = uint64 (a + b) := by
  unfold uint64; omega

theorem uint64_add_right (a b : Int) : uint64 (a + uint64 b) = uint64 (a + b) := by
  unfold uint64; omega

/-! ## The calendar arithmetic of package time -/

theorem tmod_eq_zero_iff (a b : Int) : a.tmod b = 0 ↔ a % b = 0 := by
  rw [← Int.dvd_iff_tmod_eq_zero, Int.dvd_iff_emod_eq_zero]

theorem isLeap_iff (y : Int) :
    isLeap y = true ↔ y % 4 = 0 ∧ (y % 100 ≠ 0 ∨ y % 400 = 0) := by
  simp [isLeap, tmod_eq_zero_iff]

/-- From the absolute epoch year on, `daysSinceEpoch` counts the days to the
first day of the year, up to the width of its `uint64`. -/
theorem daysSinceEpoch_eq (y : Int) (h1 : absoluteZeroYear ≤ y) (h2 : isInt64 y) :
    daysSinceEpoch y = uint64 (yearStart y) := by
  unfold isInt64 at h2
  have hY : uint64 (wrap64 (y - absoluteZeroYear)) = y - absoluteZeroYear := by
    simp only [absoluteZeroYear, uint64, wrap64] at h1 ⊢
    omega
  simp only [daysSinceEpoch, yearStart, hY]
  have h0 : 0 ≤ y - absoluteZeroYear := by omega
  have h3 : y - absoluteZeroYear < 2 ^ 64 := by simp only [absoluteZeroYear]; omega
  generalize y - absoluteZeroYear = Y at h0 h3 ⊢
  have e1 : uint64 (Y - uint64 (400 * (Y / 400))) = Y % 400 := by unfold uint64; omega
  rw [e1]
  have e2 : uint64 (Y % 400 - uint64 (100 * (Y % 400 / 100))) = Y % 400 % 100 := by
    unfold uint64; omega
  rw [e2]
  have e3 : uint64 (Y % 400 % 100 - uint64 (4 * (Y % 400 % 100 / 4))) = Y % 400 % 100 % 4 := by
    unfold uint64; omega
  rw [e3]
  simp only [uint64_add_left, uint64_add_right]
  congr 1
  simp only [daysPer400Years, daysPer100Years, daysPer4Years]
  omega

theorem norm_twelve (hi lo : Int) (hhi : isInt64 hi) (hlo : isInt64 lo)
    (h : isInt64 (hi + lo / 12)) : norm hi lo 12 = (hi + lo / 12, lo % 12) := by
  unfold isInt64 at hhi hlo h
  simp only [norm]
  by_cases h1 : lo < 0
  · simp only [h1, if_true]
    have h2 : 0 ≤ wrap64 (wrap64 (-lo) - 1) := by unfold wrap64; omega
    rw [Int.tdiv_eq_ediv h2 (by decide)]
    unfold wrap64 at h2 ⊢
    split_ifs <;> refine Prod.ext ?_ ?_ <;> simp only <;> omega
  · simp only [h1, if_false]
    rw [Int.tdiv_eq_ediv (by omega) (by decide)]
    unfold wrap64
    split_ifs <;> refine Prod.ext ?_ ?_ <;> simp only <;> omega

theorem norm_zero (hi base : Int) (hb : 0 < base) : norm hi 0 base = (hi, 0) := by
  simp only [norm, lt_self_iff_false, if_false, ge_iff_le]
  rw [if_neg (by omega)]

/-- The instant that `time.Date` stores for a day at 00:00:00 UTC: the
seconds of the day number, shifted to the internal epoch and stored in an
`int64`.  The year that the month carries into must not lie before the
absolute epoch year. -/
theorem Date_eq (y m d : Int) (hy : isInt64 y) (hm : isInt64 m) (hm1 : isInt64 (m - 1))
    (hd : isInt64 d) (hy1 : absoluteZeroYear ≤ y + (m - 1) / 12)
    (hy2 : isInt64 (y + (m - 1) / 12)) :
    Date y m d 0 0 0 0 =
      { sec := wrap64 (dayNumber (y + (m - 1) / 12) ((m - 1) % 12 + 1) d * secondsPerDay
                 + absoluteToInternal),
        nsec := 0, loc := none } := by
  unfold Date
  simp only [wrap64_of_isInt64 _ hy, wrap64_of_isInt64 _ hm, wrap64_of_isInt64 _ hm1,
    wrap64_of_isInt64 _ hd, wrap64_zero]
  rw [norm_zero _ _ (by decide), norm_zero _ _ (by decide), norm_zero _ _ (by decide),
    norm_zero _ _ (by decide), norm_twelve _ _ hy hm1 hy2]
  simp only []
  rw [wrap64_small ((m - 1) % 12 + 1) (by omega) (by omega)]
  simp only [add_sub_cancel_right]
  rw [wrap64_small ((m - 1) % 12) (by omega) (by omega), daysSinceEpoch_eq _ hy1 hy2]
  simp only [dayNumber, add_sub_cancel_right, zero_mul, wrap64_zero, add_zero]
  simp only [Time.mk.injEq, and_true]
  generalize yearStart (y + (m - 1) / 12) = S
  generalize daysBefore ((m - 1) % 12) = B
  simp only [secondsPerDay, secondsPerHour, secondsPerMinute, absoluteToInternal, internalToUnix,
    unixToInternal]
  unfold uint64 wrap64
  split_ifs <;> omega

/-- The arithmetic of `absYearDay`: cutting the day number `n` into cycles
of 400, 100, 4 and 1 years leaves the year `y` (counted from the absolute
epoch) and the day `r` within it. -/
theorem cycles_spec (n a b0 c e0 : Int) (ha : n / 146097 = a)
    (hb : (n - 146097 * a) / 36524 = b0)
    (hc : (n - 146097 * a - 36524 * (b0 - b0 / 4)) / 1461 = c)
    (he : (n - 146097 * a - 36524 * (b0 - b0 / 4) - 1461 * c) / 365 = e0)
    (y r : Int) (hy : y = 400 * a + 100 * (b0 - b0 / 4) + 4 * c + (e0 - e0 / 4))
    (hr : r = n - 146097 * a - 36524 * (b0 - b0 / 4) - 1461 * c - 365 * (e0 - e0 / 4)) :
    365 * y + y / 4 - y / 100 + y / 400 + r = n ∧ 0 ≤ r ∧
      (r < 365 ∨ (r = 365 ∧ (y + 1) % 4 = 0 ∧ ((y + 1) % 100 ≠ 0 ∨ (y + 1) % 400 = 0))) := by
  have hb0 : 0 ≤ b0 ∧ b0 ≤ 4 := by omega
  have hc0 : 0 ≤ c ∧ c ≤ 24 := by omega
  have he0 : 0 ≤ e0 ∧ e0 ≤ 4 := by omega
  obtain ⟨hb1, hb2⟩ := hb0
  obtain ⟨he1, he2⟩ := he0
  subst hy hr
  interval_cases b0 <;> interval_cases e0 <;> omega

theorem absYearDay_spec (abs : Int) :
    yearStart (absYearDay abs).1 + (absYearDay abs).2 = abs / secondsPerDay
    ∧ 0 ≤ (absYearDay abs).2
    ∧ (absYearDay abs).2 < (if isLeap (absYearDay abs).1 then 366 else 365) := by
  obtain ⟨y, r, hyr, h1, h2, h3⟩ : ∃ y r : Int, absYearDay abs = (y + absoluteZeroYear, r) ∧
      365 * y + y / 4 - y / 100 + y / 400 + r = abs / secondsPerDay ∧ 0 ≤ r ∧
      (r < 365 ∨ (r = 365 ∧ (y + 1) % 4 = 0 ∧ ((y + 1) % 100 ≠ 0 ∨ (y + 1) % 400 = 0))) :=
    ⟨_, _, rfl, cycles_spec (abs / secondsPerDay) _ _ _ _ rfl rfl rfl rfl _ _ rfl rfl⟩
  rw [hyr]
  simp only [yearStart, add_sub_cancel_right]
  refine ⟨h1, h2, ?_⟩
  have hl := isLeap_iff (y + absoluteZeroYear)
  simp only [absoluteZeroYear] at hl ⊢
  split_ifs with h
  · omega
  · rw [hl] at h
    omega

theorem absDate_false (abs : Int) :
    absDate abs false = ((absYearDay abs).1, 0, 0, (absYearDay abs).2) := by
  simp [absDate]

theorem absDate_true (abs : Int) :
    absDate abs true =
      ((absYearDay abs).1,
       (monthDay (isLeap (absYearDay abs).1) (absYearDay abs).2).1,
       (monthDay (isLeap (absYearDay abs).1) (absYearDay abs).2).2,
       (absYearDay abs).2) := by
  simp only [absDate, monthDay, Bool.not_true, Bool.false_eq_true, if_false]
  split_ifs <;> rfl

set_option maxRecDepth 100000 in
theorem monthDay_spec_nat (leap : Bool) :
    ∀ k : Nat, k < (if leap then 366 else 365) →
      1 ≤ (monthDay leap k).1 ∧ (monthDay leap k).1 ≤ 12 ∧ 1 ≤ (monthDay leap k).2 ∧
      (monthDay leap k).2 ≤
        (if (monthDay leap k).1 == February && leap then 29
         else daysBefore (monthDay leap k).1 - daysBefore ((monthDay leap k).1 - 1)) ∧
      daysBefore ((monthDay leap k).1 - 1)
        + (if leap && decide ((monthDay leap k).1 ≥ March) then 1 else 0)
        + ((monthDay leap k).2 - 1) = k := by
  cases leap <;> decide

end time


namespace time

theorem monthDay_spec (leap : Bool) (yday : Int) (h0 : 0 ≤ yday)
    (h1 : yday < (if leap then 366 else 365)) :
    1 ≤ (monthDay leap yday).1 ∧ (monthDay leap yday).1 ≤ 12 ∧ 1 ≤ (monthDay leap yday).2 ∧
      (monthDay leap yday).2 ≤
        (if (monthDay leap yday).1 == February && leap then 29
         else daysBefore (monthDay leap yday).1 - daysBefore ((monthDay leap yday).1 - 1)) ∧
      daysBefore ((monthDay leap yday).1 - 1)
        + (if leap && decide ((monthDay leap yday).1 ≥ March) then 1 else 0)
        + ((monthDay leap yday).2 - 1) = yday := by
  have h := monthDay_spec_nat leap yday.toNat (by
    cases leap <;> simp at h1 ⊢ <;> omega)
  rwa [Int.toNat_of_nonneg h0] at h

/-- Decoding an absolute time gives a valid calendar date whose day number
is the day of that absolute time. -/
theorem absDate_spec (abs : Int) :
    validDate (absDate abs true).1 (absDate abs true).2.1 (absDate abs true).2.2.1 ∧
      dayNumber (absDate abs true).1 (absDate abs true).2.1 (absDate abs true).2.2.1
        = abs / secondsPerDay := by
  obtain ⟨h1, h2, h3⟩ := absYearDay_spec abs
  obtain ⟨m1, m2, m3, m4, m5⟩ := monthDay_spec (isLeap (absYearDay abs).1) (absYearDay abs).2 h2 h3
  rw [absDate_true]
  simp only [validDate, dayNumber, daysIn]
  refine ⟨⟨m1, m2, m3, m4⟩, ?_⟩
  rw [← h1]
  linarith [m5]

theorem yearStart_succ (y : Int) :
    yearStart (y + 1) = yearStart y + (if isLeap y then 366 else 365) := by
  have hl := isLeap_iff y
  simp only [yearStart, absoluteZeroYear]
  split_ifs with h
  · rw [hl] at h; omega
  · rw [hl] at h; omega

theorem yearStart_mono (y1 y2 : Int) (h : y1 ≤ y2) :
    yearStart y1 ≤ yearStart y2 := by
  simp only [yearStart, absoluteZeroYear]
  omega

end time


namespace time

set_option maxRecDepth 100000 in
theorem monthStart_table (leap : Bool) :
    ∀ m1 : Nat, m1 < 13 → 1 ≤ m1 →
      0 ≤ daysBefore ((m1 : Int) - 1) ∧
      daysBefore ((m1 : Int) - 1) + (if leap && decide ((m1 : Int) ≥ March) then 1 else 0)
          + (if ((m1 : Int) == February && leap) then 29
             else daysBefore m1 - daysBefore ((m1 : Int) - 1))
        ≤ (if leap then 366 else 365) ∧
      ∀ m2 : Nat, m2 < 13 → m1 < m2 →
        daysBefore ((m1 : Int) - 1) + (if leap && decide ((m1 : Int) ≥ March) then 1 else 0)
          + (if ((m1 : Int) == February && leap) then 29
             else daysBefore m1 - daysBefore ((m1 : Int) - 1))
        ≤ daysBefore ((m2 : Int) - 1) + (if leap && decide ((m2 : Int) ≥ March) then 1 else 0) := by
  cases leap <;> decide

theorem daysIn_le (y m : Int) (h1 : 1 ≤ m) (h2 : m ≤ 12) : daysIn m y ≤ 31 := by
  interval_cases m <;> simp [daysIn, daysBefore, daysBeforeTable, February]
  cases isLeap y <;> simp

theorem yearDay_bounds (y : Int) (m : Int) (d : Int) (h : validDate y m d) :
    0 ≤ daysBefore (m - 1) + (if isLeap y && m >= March then 1 else 0) + (d - 1) ∧
      daysBefore (m - 1) + (if isLeap y && m >= March then 1 else 0) + (d - 1)
        < (if isLeap y then 366 else 365) := by
  obtain ⟨h1, h2, h3, h4⟩ := h
  have ht := monthStart_table (isLeap y) m.toNat (by omega) (by omega)
  rw [Int.toNat_of_nonneg (by omega)] at ht
  obtain ⟨t1, t2, -⟩ := ht
  simp only [daysIn] at h4
  constructor
  · split_ifs <;> omega
  · omega

theorem monthStart_lt (y : Int) (m1 m2 : Int) (d1 d2 : Int) (h1 : validDate y m1 d1)
    (h2 : validDate y m2 d2) (hm : m1 < m2) :
    daysBefore (m1 - 1) + (if isLeap y && m1 >= March then 1 else 0) + (d1 - 1)
      < daysBefore (m2 - 1) + (if isLeap y && m2 >= March then 1 else 0) + (d2 - 1) := by
  obtain ⟨a1, a2, a3, a4⟩ := h1
  obtain ⟨b1, b2, b3, b4⟩ := h2
  have ht := monthStart_table (isLeap y) m1.toNat (by omega) (by omega)
  rw [Int.toNat_of_nonneg (by omega)] at ht
  have ht2 := ht.2.2 m2.toNat (by omega) (by omega)
  rw [Int.toNat_of_nonneg (by omega)] at ht2
  simp only [daysIn] at a4
  omega

/-- The day number is strictly increasing along the lexicographic order of
valid calendar dates. -/
theorem dayNumber_lt (y1 : Int) (m1 : Int) (d1 y2 : Int) (m2 : Int) (d2 : Int)
    (h1 : validDate y1 m1 d1) (h2 : validDate y2 m2 d2)
    (h : y1 < y2 ∨ (y1 = y2 ∧ (m1 < m2 ∨ (m1 = m2 ∧ d1 < d2)))) :
    dayNumber y1 m1 d1 < dayNumber y2 m2 d2 := by
  have b1 := yearDay_bounds y1 m1 d1 h1
  have b2 := yearDay_bounds y2 m2 d2 h2
  simp only [dayNumber]
  rcases h with h | ⟨rfl, h | ⟨rfl, h⟩⟩
  · have s := yearStart_succ y1
    have mo := yearStart_mono (y1 + 1) y2 (by omega)
    omega
  · have := monthStart_lt y1 m1 m2 d1 d2 h1 h2 h
    omega
  · omega

/-- Two valid calendar dates with the same day number are the same date. -/
theorem dayNumber_inj (y1 : Int) (m1 : Int) (d1 y2 : Int) (m2 : Int) (d2 : Int)
    (h1 : validDate y1 m1 d1) (h2 : validDate y2 m2 d2)
    (h : dayNumber y1 m1 d1 = dayNumber y2 m2 d2) : y1 = y2 ∧ m1 = m2 ∧ d1 = d2 := by
  by_contra hne
  have c1 := dayNumber_lt y1 m1 d1 y2 m2 d2 h1 h2
  have c2 := dayNumber_lt y2 m2 d2 y1 m1 d1 h2 h1
  have : (y1 < y2 ∨ (y1 = y2 ∧ (m1 < m2 ∨ (m1 = m2 ∧ d1 < d2)))) ∨
      (y2 < y1 ∨ (y2 = y1 ∧ (m2 < m1 ∨ (m2 = m1 ∧ d2 < d1)))) := by omega
  rcases this with h' | h'
  · have := c1 h'; omega
  · have := c2 h'; omega

/-- The lexicographic order of valid calendar dates is the order of their
day numbers. -/
theorem dayNumber_lt_iff (y1 m1 d1 y2 m2 d2 : Int)
    (h1 : validDate y1 m1 d1) (h2 : validDate y2 m2 d2) :
    (y1 < y2 ∨ (y1 = y2 ∧ (m1 < m2 ∨ (m1 = m2 ∧ d1 < d2)))) ↔
      dayNumber y1 m1 d1 < dayNumber y2 m2 d2 := by
  constructor
  · exact dayNumber_lt y1 m1 d1 y2 m2 d2 h1 h2
  · intro h
    by_contra hn
    have hcases : (y1 = y2 ∧ m1 = m2 ∧ d1 = d2) ∨
        (y2 < y1 ∨ (y2 = y1 ∧ (m2 < m1 ∨ (m2 = m1 ∧ d2 < d1)))) := by omega
    rcases hcases with ⟨e1, e2, e3⟩ | h'
    · subst e1 e2 e3
      omega
    · have := dayNumber_lt y2 m2 d2 y1 m1 d1 h2 h1 h'
      omega

end time


namespace time

/-! ## Instants at midnight UTC -/

theorem Midnight.abs_eq {t : Time} {n : Int} (h : Midnight t n) : t.abs = n * secondsPerDay := by
  obtain ⟨-, h2, h3, h4, h5⟩ := h
  simp only [Time.abs, Time.unixSec, h2, h5, internalToUnix, internalToAbsolute, unixToInternal,
    absoluteToInternal, secondsPerDay, secondsPerHour, secondsPerMinute] at h4 ⊢
  unfold uint64 wrap64
  omega

theorem Midnight.day_eq {t : Time} {n : Int} (h : Midnight t n) :
    t.abs / secondsPerDay = n := by
  rw [h.abs_eq]
  simp [secondsPerDay, secondsPerHour, secondsPerMinute]

/-- An instant at midnight UTC has no time of day. -/
theorem Midnight.time_of_day {t : Time} {n : Int} (h : Midnight t n) :
    t.Hour = 0 ∧ t.Minute = 0 ∧ t.Second = 0 ∧ t.Nanosecond = 0 ∧ t.Location = UTC := by
  have habs := h.abs_eq
  obtain ⟨h1, h2, -⟩ := h
  refine ⟨?_, ?_, ?_, h1, ?_⟩
  · simp only [Time.Hour, habs, secondsPerDay, secondsPerHour, secondsPerMinute]
    omega
  · simp only [Time.Minute, habs, secondsPerDay, secondsPerHour, secondsPerMinute]
    omega
  · simp only [Time.Second, habs, secondsPerDay, secondsPerHour, secondsPerMinute]
    omega
  · simp only [Time.Location, h2]

/-- Two instants at midnight UTC store the same second exactly when they are
the same day. -/
theorem Midnight.sec_eq_iff {t u : Time} {n1 n2 : Int} (ht : Midnight t n1)
    (hu : Midnight u n2) : t.sec = u.sec ↔ n1 = n2 := by
  obtain ⟨-, -, t3, t4, t5⟩ := ht
  obtain ⟨-, -, u3, u4, u5⟩ := hu
  rw [t5, u5]
  have e : n1 * secondsPerDay = n2 * secondsPerDay ↔ n1 = n2 := by
    simp only [secondsPerDay, secondsPerHour, secondsPerMinute]
    omega
  have a0 : 0 ≤ n1 * secondsPerDay := by
    simp only [secondsPerDay, secondsPerHour, secondsPerMinute]
    omega
  have b0 : 0 ≤ n2 * secondsPerDay := by
    simp only [secondsPerDay, secondsPerHour, secondsPerMinute]
    omega
  rw [← e]
  generalize n1 * secondsPerDay = a at t4 a0 ⊢
  generalize n2 * secondsPerDay = b at u4 b0 ⊢
  simp only [absoluteToInternal]
  unfold wrap64
  omega

theorem Representable.year_isInt64 {y m d : Int} (h : Representable y m d) :
    isInt64 (y + (m - 1) / 12) := by
  obtain ⟨h1, h2, h3, h4, h5, h6, h7⟩ := h
  have ht := monthStart_table (isLeap (y + (m - 1) / 12)) ((m - 1) % 12 + 1).toNat
    (by omega) (by omega)
  rw [Int.toNat_of_nonneg (by omega)] at ht
  obtain ⟨t1, t2, -⟩ := ht
  unfold isInt64 at *
  simp only [dayNumber, yearStart, absoluteZeroYear, secondsPerDay, secondsPerHour,
    secondsPerMinute] at *
  constructor
  · omega
  · split_ifs at h6 h7 <;> omega

/-- On representable arguments `time.Date` builds the instant at midnight
UTC of the day with the number of the normalized date. -/
theorem Date_midnight (y m d : Int) (h : Representable y m d) :
    Midnight (Date y m d 0 0 0 0) (dayNumber (y + (m - 1) / 12) ((m - 1) % 12 + 1) d) := by
  have hy := h.year_isInt64
  obtain ⟨h1, h2, h3, h4, h5, h6, h7⟩ := h
  rw [Date_eq y m d h1 h2 h3 h4 h5 hy]
  exact ⟨rfl, rfl, h6, h7, rfl⟩

theorem zero_midnight : Midnight Time.zero 106751990353932 := by
  refine ⟨rfl, rfl, by decide, by decide, by decide⟩

/-- The civil date of an instant at midnight UTC is a valid calendar date,
and its day number is the day of the instant. -/
theorem Midnight.date_spec {t : Time} {n : Int} (h : Midnight t n) :
    validDate t.Date.1 t.Date.2.1 t.Date.2.2 ∧ dayNumber t.Date.1 t.Date.2.1 t.Date.2.2 = n := by
  have := absDate_spec t.abs
  rw [h.day_eq] at this
  exact this

theorem Time.Year_eq (t : Time) : t.Year = t.Date.1 := by
  simp [Time.Year, Time.Date, absDate_true, absDate_false]

theorem Time.Month_eq (t : Time) : t.Month = t.Date.2.1 := rfl

theorem Time.Day_eq (t : Time) : t.Day = t.Date.2.2 := rfl

/-- A valid calendar date whose day the library can count is representable:
the year is not before the absolute epoch year and the seconds of the day
number fit a `uint64`. -/
theorem Representable_of_valid (y m d : Int) (h : validDate y m d)
    (hy : absoluteZeroYear ≤ y) (hn : dayNumber y m d * secondsPerDay < 2 ^ 64) :
    Representable y m d := by
  have hb := yearDay_bounds y m d h
  obtain ⟨h1, h2, h3, h4⟩ := h
  have e1 : y + (m - 1) / 12 = y := by omega
  have e2 : (m - 1) % 12 + 1 = m := by omega
  have hd : d ≤ 31 := Int.le_trans h4 (daysIn_le y m h1 h2)
  unfold Representable isInt64
  rw [e1, e2]
  simp only [dayNumber, yearStart, absoluteZeroYear, secondsPerDay, secondsPerHour,
    secondsPerMinute] at *
  refine ⟨⟨by omega, by omega⟩, ⟨by omega, by omega⟩, ⟨by omega, by omega⟩,
    ⟨by omega, by omega⟩, hy, by omega, hn⟩

/-- A valid calendar date with a year between 0 and 9999 is representable. -/
theorem Representable_of_four_digits (y m d : Int) (h : validDate y m d) (h0 : 0 ≤ y)
    (h1 : y ≤ 9999) : Representable y m d := by
  refine Representable_of_valid y m d h (by simp only [absoluteZeroYear]; omega) ?_
  have hb := yearDay_bounds y m d h
  simp only [dayNumber, yearStart, absoluteZeroYear, secondsPerDay, secondsPerHour,
    secondsPerMinute] at *
  omega

/-- A valid and representable calendar date is read back unchanged from the
instant that `Date` builds for it. -/
theorem Date_roundtrip (y m d : Int) (h : validDate y m d) (hr : Representable y m d) :
    (Date y m d 0 0 0 0).Date = (y, m, d) := by
  have hm := Date_midnight y m d hr
  have e1 : y + (m - 1) / 12 = y := by obtain ⟨h1, h2, -⟩ := h; omega
  have e2 : (m - 1) % 12 + 1 = m := by obtain ⟨h1, h2, -⟩ := h; omega
  rw [e1, e2] at hm
  obtain ⟨v, e⟩ := hm.date_spec
  obtain ⟨a, b, c⟩ := dayNumber_inj _ _ _ _ _ _ v h e
  exact Prod.ext a (Prod.ext b c)

/-- The date that `absDate` reads from a `uint64` is representable. -/
theorem absDate_representable (abs : Int) (h0 : 0 ≤ abs) (h1 : abs < 2 ^ 64) :
    Representable (absDate abs true).1 (absDate abs true).2.1 (absDate abs true).2.2.1 := by
  obtain ⟨v, e⟩ := absDate_spec abs
  refine Representable_of_valid _ _ _ v ?_ ?_
  · obtain ⟨a1, a2, a3⟩ := absYearDay_spec abs
    have hl := isLeap_iff (absYearDay abs).1
    rw [absDate_true]
    simp only [yearStart, absoluteZeroYear, secondsPerDay, secondsPerHour,
      secondsPerMinute] at *
    split_ifs at a3 with c
    · rw [hl] at c
      omega
    · omega
  · rw [e]
    simp only [secondsPerDay, secondsPerHour, secondsPerMinute]
    omega

theorem Time.abs_range (t : Time) : 0 ≤ t.abs ∧ t.abs < 2 ^ 64 := by
  simp only [Time.abs, uint64]
  omega

theorem Time.Date_valid (v : Time) : validDate v.Date.1 v.Date.2.1 v.Date.2.2 :=
  (absDate_spec v.abs).1

/-- The civil date of any instant is representable. -/
theorem Time.Date_representable (v : Time) : Representable v.Date.1 v.Date.2.1 v.Date.2.2 :=
  absDate_representable v.abs (Time.abs_range v).1 (Time.abs_range v).2

theorem ParseDate_cases (s : GoString) :
    (∃ e, ParseDate s = (Time.zero, some e)) ∨
      (∃ y m d : Int, validDate y m d ∧ ParseDate s = (Date y m d 0 0 0 0, none)) := by
  simp only [ParseDate]
  repeat' split
  all_goals first
    | exact Or.inl ⟨_, rfl⟩
    | (rename_i hmonth _ _ _ _ _ _ _ _ hday
       refine Or.inr ⟨_, _, _, ?_, rfl⟩
       simp only [Bool.or_eq_true, decide_eq_true_eq, not_or, not_lt, not_le] at hmonth hday
       exact ⟨by omega, by omega, by omega, by omega⟩)

end time


namespace time

/-! ## The parser for the layout `2006-01-02` -/

theorem isDigit_zero_cons (c : Char) (s : List Char) :
    isDigit (c :: s) 0 = date.isAsciiDigit c := rfl

theorem isDigit_one_cons (c d : Char) (s : List Char) :
    isDigit (c :: d :: s) 1 = date.isAsciiDigit d := rfl

theorem isDigit_nil (i : Nat) : isDigit [] i = false := rfl

theorem isDigit_one_single (c : Char) : isDigit [c] 1 = false := rfl

theorem isAsciiDigit_iff (c : Char) :
    date.isAsciiDigit c = true ↔ 48 ≤ c.toNat ∧ c.toNat ≤ 57 := by
  simp [date.isAsciiDigit]

theorem digitVal_eq (c : Char) : digitVal c = (c.toNat : Int) - 48 := rfl

theorem isAsciiDigit_ne_sign (c : Char) (h : date.isAsciiDigit c = true) :
    (c == '-') = false ∧ (c == '+') = false := by
  rw [isAsciiDigit_iff] at h
  constructor
  · rw [beq_eq_false_iff_ne]
    rintro rfl
    simp at h
  · rw [beq_eq_false_iff_ne]
    rintro rfl
    simp at h

theorem getnum_fixed_some (v : List Char) (n : Int) (rest : List Char) :
    getnum v true = some (n, rest) ↔
      ∃ a b, v = a :: b :: rest ∧ date.isAsciiDigit a = true ∧ date.isAsciiDigit b = true ∧
        n = digitVal a * 10 + digitVal b := by
  rcases v with _ | ⟨a, _ | ⟨b, r⟩⟩
  · simp [getnum, isDigit_nil]
  · simp [getnum, isDigit_zero_cons, isDigit_one_single]
  · simp only [getnum, isDigit_zero_cons, isDigit_one_cons]
    cases ha : date.isAsciiDigit a <;> cases hb : date.isAsciiDigit b <;>
      simp [ha, hb]
    constructor
    · rintro ⟨rfl, rfl⟩
      exact ⟨a, b, ⟨rfl, rfl, rfl⟩, ha, hb, rfl⟩
    · rintro ⟨a1, b1, ⟨rfl, rfl, rfl⟩, -, -, rfl⟩
      exact ⟨rfl, rfl⟩

theorem skip_hyphen (v rest : List Char) :
    skip v ['-'] = some rest ↔ v = '-' :: rest := by
  rcases v with _ | ⟨c, r⟩
  · simp [skip]
  · by_cases h : c = '-'
    · subst h
      simp [skip]
    · simp [skip, h]

theorem leadingIntLoop_digit (c : Char) (s : List Char) (x : Int)
    (hc : date.isAsciiDigit c = true) (h0 : 0 ≤ x) (h1 : x < 100000) :
    leadingIntLoop (c :: s) x = leadingIntLoop s (x * 10 + digitVal c) := by
  rw [isAsciiDigit_iff] at hc
  have hw : wrap64 (x * 10 + (c.toNat : Int) - 48) = x * 10 + (c.toNat : Int) - 48 :=
    wrap64_small _ (by omega) (by omega)
  have e2 : '0'.toNat = 48 := rfl
  have e3 : '9'.toNat = 57 := rfl
  rw [leadingIntLoop]
  simp only [e2, e3, Nat.cast_ofNat, hw, digitVal_eq]
  rw [if_neg (by simp; omega), if_neg (by omega), if_neg (by omega)]
  congr 1
  ring

theorem leadingIntLoop_nondigit (c : Char) (s : List Char) (x : Int)
    (hc : date.isAsciiDigit c = false) :
    leadingIntLoop (c :: s) x = some (x, c :: s) := by
  have hc2 : ¬ (48 ≤ c.toNat ∧ c.toNat ≤ 57) := by
    rw [← isAsciiDigit_iff, hc]; simp
  have e2 : '0'.toNat = 48 := rfl
  have e3 : '9'.toNat = 57 := rfl
  rw [leadingIntLoop]
  simp only [e2, e3]
  rw [if_pos (by simp; omega)]

/-- The year field: four characters of which the first is a digit are
accepted by `atoi` exactly when all of them are digits. -/
theorem atoi_four (c0 c1 c2 c3 : Char) (h0 : date.isAsciiDigit c0 = true) :
    atoi [c0, c1, c2, c3] =
      if date.isAsciiDigit c1 && date.isAsciiDigit c2 && date.isAsciiDigit c3 then
        some (digitVal c0 * 1000 + digitVal c1 * 100 + digitVal c2 * 10 + digitVal c3)
      else none := by
  obtain ⟨s1, s2⟩ := isAsciiDigit_ne_sign c0 h0
  have b0 := (isAsciiDigit_iff c0).1 h0
  simp only [atoi, s1, s2, Bool.or_self, Bool.false_eq_true, if_false, leadingInt]
  rw [leadingIntLoop_digit c0 _ 0 h0 (by omega) (by omega)]
  cases h1 : date.isAsciiDigit c1
  · rw [leadingIntLoop_nondigit c1 _ _ h1]
    simp
  have b1 := (isAsciiDigit_iff c1).1 h1
  rw [leadingIntLoop_digit c1 _ _ h1 (by rw [digitVal_eq]; omega) (by rw [digitVal_eq]; omega)]
  cases h2 : date.isAsciiDigit c2
  · rw [leadingIntLoop_nondigit c2 _ _ h2]
    simp
  have b2 := (isAsciiDigit_iff c2).1 h2
  rw [leadingIntLoop_digit c2 _ _ h2 (by simp only [digitVal_eq]; omega)
    (by simp only [digitVal_eq]; omega)]
  cases h3 : date.isAsciiDigit c3
  · rw [leadingIntLoop_nondigit c3 _ _ h3]
    simp
  have b3 := (isAsciiDigit_iff c3).1 h3
  rw [leadingIntLoop_digit c3 _ _ h3 (by simp only [digitVal_eq]; omega)
    (by simp only [digitVal_eq]; omega)]
  simp only [leadingIntLoop, List.isEmpty_nil, Bool.not_true, Bool.false_eq_true, if_false,
    Bool.and_self, if_true, Option.some.injEq]
  ring

end time


namespace time

/-- The shape of a string `YYYY-MM-DD` naming a real calendar date, with its
characters made explicit. -/
theorem isISODate_iff (s : GoString) :
    date.isISODate s = true ↔
      ∃ y1 y2 y3 y4 m1 m2 d1 d2 : Char, s.data = [y1, y2, y3, y4, '-', m1, m2, '-', d1, d2] ∧
        date.isAsciiDigit y1 = true ∧ date.isAsciiDigit y2 = true ∧
        date.isAsciiDigit y3 = true ∧ date.isAsciiDigit y4 = true ∧
        date.isAsciiDigit m1 = true ∧ date.isAsciiDigit m2 = true ∧
        date.isAsciiDigit d1 = true ∧ date.isAsciiDigit d2 = true ∧
        validDate (digitVal y1 * 1000 + digitVal y2 * 100 + digitVal y3 * 10 + digitVal y4)
          (digitVal m1 * 10 + digitVal m2) (digitVal d1 * 10 + digitVal d2) := by
  unfold date.isISODate
  constructor
  · intro h
    split at h
    · rename_i y1 y2 y3 y4 h1 m1 m2 h2 d1 d2 heq
      simp only [Bool.and_eq_true, beq_iff_eq, decide_eq_true_eq] at h
      obtain ⟨⟨⟨⟨⟨⟨⟨⟨⟨⟨⟨⟨⟨a1, a2⟩, a3⟩, a4⟩, rfl⟩, a5⟩, a6⟩, rfl⟩, a7⟩, a8⟩, r1⟩, r2⟩, r3⟩, r4⟩ := h
      exact ⟨y1, y2, y3, y4, m1, m2, d1, d2, heq, a1, a2, a3, a4, a5, a6, a7, a8, r1, r2, r3, r4⟩
    · exact absurd h (by simp)
  · rintro ⟨y1, y2, y3, y4, m1, m2, d1, d2, heq, a1, a2, a3, a4, a5, a6, a7, a8, r1, r2, r3, r4⟩
    rw [heq]
    simp only [a1, a2, a3, a4, a5, a6, a7, a8, r1, r2, r3, r4, beq_self_eq_true, Bool.and_self,
      decide_True]

/-- `time.Parse` accepts a string `YYYY-MM-DD` naming a real calendar date
and builds the instant of that date. -/
theorem ParseDate_of_fields (s : GoString) (y1 y2 y3 y4 m1 m2 d1 d2 : Char)
    (hs : s.data = [y1, y2, y3, y4, '-', m1, m2, '-', d1, d2])
    (a1 : date.isAsciiDigit y1 = true) (a2 : date.isAsciiDigit y2 = true)
    (a3 : date.isAsciiDigit y3 = true) (a4 : date.isAsciiDigit y4 = true)
    (a5 : date.isAsciiDigit m1 = true) (a6 : date.isAsciiDigit m2 = true)
    (a7 : date.isAsciiDigit d1 = true) (a8 : date.isAsciiDigit d2 = true)
    (hv : validDate (digitVal y1 * 1000 + digitVal y2 * 100 + digitVal y3 * 10 + digitVal y4)
          (digitVal m1 * 10 + digitVal m2) (digitVal d1 * 10 + digitVal d2)) :
    ParseDate s =
      (Date (digitVal y1 * 1000 + digitVal y2 * 100 + digitVal y3 * 10 + digitVal y4)
        (digitVal m1 * 10 + digitVal m2) (digitVal d1 * 10 + digitVal d2) 0 0 0 0, none) := by
  obtain ⟨r1, r2, r3, r4⟩ := hv
  have g1 : getnum [m1, m2, '-', d1, d2] true =
      some (digitVal m1 * 10 + digitVal m2, ['-', d1, d2]) :=
    (getnum_fixed_some _ _ _).2 ⟨m1, m2, rfl, a5, a6, rfl⟩
  have g2 : getnum [d1, d2] true = some (digitVal d1 * 10 + digitVal d2, []) :=
    (getnum_fixed_some _ _ _).2 ⟨d1, d2, rfl, a7, a8, rfl⟩
  have k1 : skip ['-', m1, m2, '-', d1, d2] ['-'] = some [m1, m2, '-', d1, d2] :=
    (skip_hyphen _ _).2 rfl
  have k2 : skip ['-', d1, d2] ['-'] = some [d1, d2] := (skip_hyphen _ _).2 rfl
  simp only [ParseDate, hs, List.length_cons, List.length_nil, isDigit_zero_cons, a1,
    List.take_succ_cons, List.take_zero, List.drop_succ_cons, List.drop_zero,
    atoi_four y1 y2 y3 y4 a1, a2, a3, a4, Bool.and_self, if_true, k1, g1, k2, g2]
  simp only [Nat.reduceAdd, Nat.reduceLT, decide_False, Bool.not_true, Bool.or_self,
    Bool.false_eq_true, if_false, bne_self_eq_false]
  rw [if_neg (by simp; omega), if_neg (by simp; omega)]

theorem take_four_of_length (v : List Char) (h : ¬ v.length < 4) :
    ∃ c0 c1 c2 c3 r, v = c0 :: c1 :: c2 :: c3 :: r := by
  rcases v with _ | ⟨c0, _ | ⟨c1, _ | ⟨c2, _ | ⟨c3, r⟩⟩⟩⟩
  · simp at h
  · simp at h
  · simp at h
  · simp at h
  · exact ⟨c0, c1, c2, c3, r, rfl⟩

/-- A string that `time.Parse` accepts has the shape `YYYY-MM-DD` and names
a real calendar date. -/
theorem ParseDate_success (s : GoString) (h : (ParseDate s).2 = none) :
    date.isISODate s = true := by
  rw [isISODate_iff]
  revert h
  simp only [ParseDate]
  repeat' split
  all_goals try (intro h; exact absurd h (Option.some_ne_none _))
  rename_i hlen _ year hyear _ v1 hv1 _ month v2 hmonth hmr _ v3 hv3 _ day v4 hday hv4 hdr
  intro _
  simp only [Bool.or_eq_true, decide_eq_true_eq, not_or, Bool.not_eq_true, Bool.not_eq_false,
    Bool.not_eq_true', bne_iff_ne, ne_eq, not_not, not_lt, not_le, List.length_eq_zero] at hlen hmr hv4 hdr
  obtain ⟨hl, hd0⟩ := hlen
  obtain ⟨c0, c1, c2, c3, r, hv⟩ := take_four_of_length s.data (by omega)
  rw [hv] at hyear hv1 hd0
  simp only [List.take_succ_cons, List.take_zero, List.drop_succ_cons, List.drop_zero,
    isDigit_zero_cons] at hyear hv1 hd0
  rw [atoi_four c0 c1 c2 c3 hd0] at hyear
  split at hyear
  · rename_i hdig
    simp only [Bool.and_eq_true] at hdig
    obtain ⟨⟨e1, e2⟩, e3⟩ := hdig
    simp only [Option.some.injEq] at hyear
    rw [skip_hyphen] at hv1 hv3
    rw [getnum_fixed_some] at hmonth hday
    obtain ⟨m1, m2, hm, f1, f2, hmv⟩ := hmonth
    obtain ⟨d1, d2, hd, f3, f4, hdv⟩ := hday
    subst hv4 hd hv3 hm hv1 hyear hmv hdv
    exact ⟨c0, c1, c2, c3, m1, m2, d1, d2, hv, hd0, e1, e2, e3, f1, f2, f3, f4,
      by omega, by omega, by omega, by omega⟩
  · exact absurd hyear (by simp)

/-- `time.Parse` with the layout `2006-01-02` returns no error exactly for
the strings `YYYY-MM-DD` that name a real calendar date. -/
theorem ParseDate_ok_iff (s : GoString) :
    (ParseDate s).2 = none ↔ date.isISODate s = true := by
  constructor
  · exact ParseDate_success s
  · intro h
    obtain ⟨y1, y2, y3, y4, m1, m2, d1, d2, hs, a1, a2, a3, a4, a5, a6, a7, a8, hv⟩ :=
      (isISODate_iff s).1 h
    rw [ParseDate_of_fields s y1 y2 y3 y4 m1 m2 d1 d2 hs a1 a2 a3 a4 a5 a6 a7 a8 hv]

/-- What `time.Parse` returns: the zero instant with an error, or with no
error the instant of a valid calendar date of a year between 0 and 9999. -/
theorem ParseDate_cases_ranged (s : GoString) :
    (∃ e, ParseDate s = (Time.zero, some e)) ∨
      (∃ y m d : Int, validDate y m d ∧ 0 ≤ y ∧ y ≤ 9999 ∧
        ParseDate s = (Date y m d 0 0 0 0, none)) := by
  rcases ParseDate_cases s with h | ⟨y, m, d, -, he⟩
  · exact Or.inl h
  · have hok : (ParseDate s).2 = none := by rw [he]
    obtain ⟨y1, y2, y3, y4, m1, m2, d1, d2, hs, a1, a2, a3, a4, a5, a6, a7, a8, hv⟩ :=
      (isISODate_iff s).1 (ParseDate_success s hok)
    have b1 := (isAsciiDigit_iff y1).1 a1
    have b2 := (isAsciiDigit_iff y2).1 a2
    have b3 := (isAsciiDigit_iff y3).1 a3
    have b4 := (isAsciiDigit_iff y4).1 a4
    refine Or.inr ⟨_, _, _, hv, ?_, ?_,
      ParseDate_of_fields s y1 y2 y3 y4 m1 m2 d1 d2 hs a1 a2 a3 a4 a5 a6 a7 a8 hv⟩
    · simp only [digitVal_eq]; omega
    · simp only [digitVal_eq]; omega

end time


namespace date

open time

/-! ## The dates of the package are instants at midnight UTC -/

theorem ParseDate_midnight (s : GoString) : ∃ n, Midnight (ParseDate s).1 n := by
  rcases ParseDate_cases_ranged s with ⟨e, h⟩ | ⟨y, m, d, v, h0, h1, h⟩
  · rw [h]; exact ⟨_, zero_midnight⟩
  · rw [h]; exact ⟨_, Date_midnight y m d (Representable_of_four_digits y m d v h0 h1)⟩

theorem Scan_midnight (d : Date) (v : ScanValue) : ∃ n, Midnight (d.Scan v).1.t n := by
  cases v with
  | null => exact ⟨_, zero_midnight⟩
  | bytes v =>
    simp only [Date.Scan]
    split_ifs
    · exact ParseDate_midnight v
    · exact ⟨_, zero_midnight⟩
  | string v =>
    simp only [Date.Scan]
    split_ifs
    · exact ParseDate_midnight v
    · exact ⟨_, zero_midnight⟩
  | time v => exact ⟨_, Date_midnight _ _ _ (Time.Date_representable v)⟩
  | other p => exact ⟨_, zero_midnight⟩

theorem Reachable.midnight {d : Date} (h : Reachable d) : ∃ n, Midnight d.t n := by
  cases h with
  | zero => exact ⟨_, zero_midnight⟩
  | newDate y m d hr => exact ⟨_, Date_midnight y m d hr⟩
  | parse s => exact ParseDate_midnight s
  | scan d v _ => exact Scan_midnight d v
  | unmarshalText d data _ => exact Scan_midnight d (ScanValue.bytes data)

/-! ## Comparisons of instants at midnight -/

theorem Before_iff_sec {a b : Date} (ha : a.t.nsec = 0) (hb : b.t.nsec = 0) :
    a.Before b = true ↔ a.t.sec < b.t.sec := by
  simp only [Date.Before, Time.Before, ha, hb, lt_self_iff_false, decide_False, Bool.and_false,
    Bool.or_false, decide_eq_true_eq]

theorem After_iff_sec {a b : Date} (ha : a.t.nsec = 0) (hb : b.t.nsec = 0) :
    a.After b = true ↔ b.t.sec < a.t.sec := by
  simp only [Date.After, Time.After, ha, hb, gt_iff_lt, lt_self_iff_false, decide_False,
    Bool.and_false, Bool.or_false, decide_eq_true_eq]

theorem Equal_iff_civil (a b : Date) : a.Equal b = true ↔ a.t.Date = b.t.Date := by
  simp only [Date.Equal, Bool.and_eq_true, beq_iff_eq]
  constructor
  · rintro ⟨⟨h1, h2⟩, h3⟩
    exact Prod.ext h1 (Prod.ext h2 h3)
  · intro h
    rw [h]
    exact ⟨⟨rfl, rfl⟩, rfl⟩

theorem Equal_iff {a b : Date} {n1 n2 : Int} (ha : Midnight a.t n1) (hb : Midnight b.t n2) :
    a.Equal b = true ↔ n1 = n2 := by
  rw [Equal_iff_civil]
  constructor
  · intro h
    have e1 := ha.date_spec.2
    have e2 := hb.date_spec.2
    rw [h] at e1
    omega
  · rintro rfl
    have : a.t = b.t := by
      obtain ⟨a1, a2, -, -, a3⟩ := ha
      obtain ⟨b1, b2, -, -, b3⟩ := hb
      cases' a with ta
      cases' b with tb
      cases ta
      cases tb
      simp_all
    rw [this]

theorem Equal_iff_sec {a b : Date} {n1 n2 : Int} (ha : Midnight a.t n1) (hb : Midnight b.t n2) :
    a.Equal b = true ↔ a.t.sec = b.t.sec := by
  rw [Equal_iff ha hb, ha.sec_eq_iff hb]

theorem civil_eq (a : Date) : a.civil = a.t.Date := by
  simp only [Date.civil, Date.Year, Date.Month, Date.Day, Time.Year_eq, Time.Month_eq,
    Time.Day_eq]

theorem lexLt_iff {a b : Date} {n1 n2 : Int} (ha : Midnight a.t n1) (hb : Midnight b.t n2) :
    lexLt a.civil b.civil ↔ n1 < n2 := by
  rw [civil_eq, civil_eq]
  obtain ⟨va, ea⟩ := ha.date_spec
  obtain ⟨vb, eb⟩ := hb.date_spec
  rw [← ea, ← eb]
  exact dayNumber_lt_iff _ _ _ _ _ _ va vb

end date


namespace date

open time

theorem zero_String : Date.zero.String = "0001-01-01" := by rfl

/-- C5: for every string `s`, when `Parse s` returns an error the date it
returns is the zero value: it equals `Date{}`, `IsZero` is true and `String`
gives "0001-01-01". -/
theorem Parse_error_is_zero (s : GoString) (h : (Parse s).2 ≠ none) :
    (Parse s).1 = Date.zero ∧ (Parse s).1.IsZero = true ∧
      (Parse s).1.String = "0001-01-01" := by
  have hz : (Parse s).1 = Date.zero := by
    rcases ParseDate_cases s with ⟨e, he⟩ | ⟨y, m, d, -, he⟩
    · simp [Parse, he, Date.zero]
    · exact absurd (by simp [Parse, he]) h
  rw [hz]
  exact ⟨rfl, rfl, zero_String⟩

theorem Parse_error_is_zero_witness :
    (Parse "2020-01-50").2 ≠ none ∧ (Parse "2020-01-50").1 = Date.zero ∧
      (Parse "2020-01-50").1.IsZero = true ∧ (Parse "2020-01-50").1.String = "0001-01-01" :=
  ⟨by decide, Parse_error_is_zero "2020-01-50" (by decide)⟩

set_option maxRecDepth 100000 in
theorem wrapped_pair :
    (NewDate 300000000000 January 1).Equal (NewDate (-284554049254) February 22) = true ∧
    (NewDate 300000000000 January 1).After (NewDate (-284554049254) February 22) = true ∧
    (NewDate 300000000000 January 1).Before (NewDate (-284554049254) February 22) = false ∧
    (NewDate 300000000000 January 1).t.sec = -8979658473741174016 ∧
    (NewDate (-284554049254) February 22).t.sec = -8979658473741235200 := by
  decide

/-- C6, for the dates that the library can count: for all dates `a` and `b`
that the package produces from the zero value, `NewDate` with representable
arguments (in range, overflowing or underflowing), `Parse`, `Scan` and
`UnmarshalText`, exactly one of `a.Before b`, `a.Equal b`, `a.After b` holds;
in particular `a.Equal b` excludes both `a.Before b` and `a.After b`. -/
theorem Equal_Before_After_trichotomy (a b : Date) (ha : Reachable a) (hb : Reachable b) :
    ((a.Before b = true ∧ a.Equal b = false ∧ a.After b = false) ∨
      (a.Before b = false ∧ a.Equal b = true ∧ a.After b = false) ∨
      (a.Before b = false ∧ a.Equal b = false ∧ a.After b = true)) ∧
    (a.Equal b = true → a.Before b = false ∧ a.After b = false) := by
  obtain ⟨n1, h1⟩ := ha.midnight
  obtain ⟨n2, h2⟩ := hb.midnight
  have hB := Before_iff_sec (a := a) (b := b) h1.1 h2.1
  have hA := After_iff_sec (a := a) (b := b) h1.1 h2.1
  have hE := Equal_iff_sec h1 h2
  rcases lt_trichotomy a.t.sec b.t.sec with h | h | h
  · have b1 : a.Before b = true := hB.2 h
    have e1 : a.Equal b = false := by
      rw [← Bool.not_eq_true, hE]; omega
    have a1 : a.After b = false := by
      rw [← Bool.not_eq_true, hA]; omega
    simp [b1, e1, a1]
  · have b1 : a.Before b = false := by
      rw [← Bool.not_eq_true, hB]; omega
    have e1 : a.Equal b = true := hE.2 h
    have a1 : a.After b = false := by
      rw [← Bool.not_eq_true, hA]; omega
    simp [b1, e1, a1]
  · have b1 : a.Before b = false := by
      rw [← Bool.not_eq_true, hB]; omega
    have e1 : a.Equal b = false := by
      rw [← Bool.not_eq_true, hE]; omega
    have a1 : a.After b = true := hA.2 h
    simp [b1, e1, a1]

theorem Equal_Before_After_trichotomy_witness :
    Reachable (NewDate 2020 February 1) ∧ Reachable (NewDate 2020 January 32) ∧
    (NewDate 2020 February 1).Equal (NewDate 2020 January 32) = true ∧
    (((NewDate 2020 February 1).Before (NewDate 2020 January 32) = true ∧
        (NewDate 2020 February 1).Equal (NewDate 2020 January 32) = false ∧
        (NewDate 2020 February 1).After (NewDate 2020 January 32) = false) ∨
      ((NewDate 2020 February 1).Before (NewDate 2020 January 32) = false ∧
        (NewDate 2020 February 1).Equal (NewDate 2020 January 32) = true ∧
        (NewDate 2020 February 1).After (NewDate 2020 January 32) = false) ∨
      ((NewDate 2020 February 1).Before (NewDate 2020 January 32) = false ∧
        (NewDate 2020 February 1).Equal (NewDate 2020 January 32) = false ∧
        (NewDate 2020 February 1).After (NewDate 2020 January 32) = true)) ∧
    ((NewDate 2020 February 1).Equal (NewDate 2020 January 32) = true →
      (NewDate 2020 February 1).Before (NewDate 2020 January 32) = false ∧
        (NewDate 2020 February 1).After (NewDate 2020 January 32) = false) :=
  ⟨Reachable.newDate _ _ _ (by decide), Reachable.newDate _ _ _ (by decide), by decide,
    Equal_Before_After_trichotomy _ _ (Reachable.newDate _ _ _ (by decide))
      (Reachable.newDate _ _ _ (by decide))⟩

/-- C6 as stated fails for `NewDate` with any arguments: the year
300000000000 lies beyond the days the library can count, `NewDate(300000000000,
January, 1)` wraps around to 16:59:44 on -284554049254-02-22, and so it is
both `Equal` to and `After` the date `NewDate(-284554049254, February, 22)`. -/
theorem Equal_and_After_beyond_range :
    (NewDate 300000000000 January 1).Equal (NewDate (-284554049254) February 22) = true ∧
    (NewDate 300000000000 January 1).After (NewDate (-284554049254) February 22) = true :=
  ⟨wrapped_pair.1, wrapped_pair.2.1⟩

set_option maxRecDepth 100000 in
theorem wrapped_year :
    (NewDate 300000000000 January 1).civil = (-284554049254, 2, 22) ∧
    (NewDate 300000000000 January 1).t.Hour = 16 ∧
    (NewDate 300000000000 January 1).t.Minute = 59 ∧
    (NewDate 300000000000 January 1).t.Second = 44 ∧
    (NewDate 300000000000 January 1).t.Nanosecond = 0 ∧
    (NewDate 300000000000 January 1).t.Location = time.UTC := by
  decide

/-- C8 at the failing input: `NewDate(300000000000, January, 1)` stores an
instant whose time of day is 16:59:44, not 00:00:00.  The seconds of that
year exceed the `uint64` in which `time.Date` counts them, and the count
wraps around into the day -284554049254-02-22. -/
theorem NewDate_time_of_day_beyond_range :
    (NewDate 300000000000 January 1).t.Hour = 16 ∧
    (NewDate 300000000000 January 1).t.Minute = 59 ∧
    (NewDate 300000000000 January 1).t.Second = 44 ∧
    (NewDate 300000000000 January 1).t.Nanosecond = 0 ∧
    (NewDate 300000000000 January 1).t.Location = time.UTC :=
  wrapped_year.2

set_option maxRecDepth 100000 in
theorem wrapped_second :
    (NewDate 292277024628 January 1).civil = (292277024628, 1, 1) ∧
    (NewDate 2020 January 1).civil = (2020, 1, 1) ∧
    (NewDate 292277024628 January 1).t.sec = -9223372036852585216 ∧
    (NewDate 2020 January 1).t.sec = 63713433600 ∧
    (NewDate 292277024628 January 1).Before (NewDate 2020 January 1) = true ∧
    (NewDate 2020 January 1).After (NewDate 292277024628 January 1) = true ∧
    ¬ lexLt (NewDate 292277024628 January 1).civil (NewDate 2020 January 1).civil := by
  decide

/-- C9 at the failing input: `NewDate(292277024628, January, 1)` reads back
as the year 292277024628, yet it is `Before` the date `NewDate(2020, January,
1)`.  The second of that day exceeds the `int64` in which a `time.Time`
stores it, so the stored second is negative, and `Before` compares the stored
seconds. -/
theorem Before_not_chronological_beyond_range :
    (NewDate 292277024628 January 1).civil = (292277024628, 1, 1) ∧
    (NewDate 2020 January 1).civil = (2020, 1, 1) ∧
    (NewDate 292277024628 January 1).t.sec = -9223372036852585216 ∧
    (NewDate 292277024628 January 1).Before (NewDate 2020 January 1) = true ∧
    ¬ lexLt (NewDate 292277024628 January 1).civil (NewDate 2020 January 1).civil :=
  ⟨wrapped_second.1, wrapped_second.2.1, wrapped_second.2.2.1, wrapped_second.2.2.2.2.1,
    wrapped_second.2.2.2.2.2.2⟩

/-- C10: whatever the receiver held before, `Scan(nil)`, `Scan("")`, `Scan`
of an empty byte sequence and `UnmarshalText` of an empty (or nil) byte
sequence return no error and leave the receiver equal to the zero date
0001-01-01, for which `IsZero` is true. -/
theorem Scan_absent_resets (d : Date) :
    d.Scan ScanValue.null = (Date.zero, none) ∧
    d.Scan (ScanValue.string "") = (Date.zero, none) ∧
    d.Scan (ScanValue.bytes "") = (Date.zero, none) ∧
    d.UnmarshalText "" = (Date.zero, none) ∧
    Date.zero.IsZero = true ∧ Date.zero.String = "0001-01-01" ∧
    Date.zero.Year = 1 ∧ Date.zero.Month = January ∧ Date.zero.Day = 1 :=
  ⟨rfl, rfl, rfl, rfl, rfl, zero_String, by decide, by decide, by decide⟩

end date


namespace time

theorem dayNumber_next_month (y m d : Int) (hm1 : 1 ≤ m) (hm2 : m ≤ 12) :
    dayNumber y m (d + daysIn m y) = dayNumber (y + m / 12) (m % 12 + 1) d := by
  have hs := yearStart_succ y
  interval_cases m <;>
    simp [dayNumber, daysIn, daysBefore, daysBeforeTable, February, March, hs] <;>
    cases isLeap y <;> (try simp) <;> omega

theorem dayNumber_prev_month (y m k : Int) (hm1 : 1 ≤ m) (hm2 : m ≤ 12) :
    dayNumber y m (-k) =
      dayNumber (date.prevMonth y m).1 (date.prevMonth y m).2
        (daysIn (date.prevMonth y m).2 (date.prevMonth y m).1 - k) := by
  have hs := yearStart_succ (y - 1)
  rw [sub_add_cancel] at hs
  interval_cases m <;>
    simp [dayNumber, daysIn, daysBefore, daysBeforeTable, date.prevMonth, January, December,
      February, March, hs] <;>
    (try cases isLeap y) <;> (try cases isLeap (y - 1)) <;> (try simp) <;> omega

/-- A valid and representable date lies in a year far below the largest
`int`. -/
theorem Representable.year_lt {y m d : Int} (h : Representable y m d) (v : validDate y m d) :
    absoluteZeroYear ≤ y ∧ y < 2 ^ 62 := by
  have hb := yearDay_bounds y m d v
  obtain ⟨v1, v2, -, -⟩ := v
  have e1 : y + (m - 1) / 12 = y := by omega
  have e2 : (m - 1) % 12 + 1 = m := by omega
  obtain ⟨-, -, -, -, h5, h6, h7⟩ := h
  rw [e1, e2] at h6 h7
  rw [e1] at h5
  refine ⟨h5, ?_⟩
  simp only [dayNumber, yearStart, absoluteZeroYear, secondsPerDay, secondsPerHour,
    secondsPerMinute] at *
  omega

end time

namespace date

open time

theorem Equal_self (a : Date) : a.Equal a = true := by
  simp [Date.Equal]

/-- A valid and representable calendar date is what the accessors of
`NewDate` read back. -/
theorem NewDate_civil (y m d : Int) (h : validDate y m d) (hr : Representable y m d) :
    (NewDate y m d).Year = y ∧ (NewDate y m d).Month = m ∧ (NewDate y m d).Day = d := by
  have hr := Date_roundtrip y m d h hr
  simp only [Date.Year, Date.Month, Date.Day, NewDate, Time.Year_eq, Time.Month_eq, Time.Day_eq,
    hr, and_self]

/-- C1, from the absolute epoch year on: for every year `y` that is not
before -292277022399 (the year from which the library counts) and below the
largest `int`, every month `m` in 1..12 and every day `d` for which `d` and
`d + daysIn m y` are `int`s (in particular every `d >= 1` below the largest
`int` less 31), `NewDate y m (d + daysIn m y)` is the same date as `NewDate y
(m+1) d`: the two are `Equal` and have the same `Year`, `Month`, `Day` and
`String`; month 13 of year `y` is January of year `y+1`.  `NewDate` is a total
function, and `NewDate 2020 January 32 = NewDate 2020 February 1` and `NewDate
2020 December 32` has year 2021. -/
theorem NewDate_day_overflow (y m d : Int) (hy0 : absoluteZeroYear ≤ y) (hy1 : y + 1 < 2 ^ 63)
    (hm1 : 1 ≤ m) (hm2 : m ≤ 12) (hd1 : isInt64 d) (hd2 : isInt64 (d + daysIn m y)) :
    NewDate y m (d + daysIn m y) = NewDate y (m + 1) d ∧
    (NewDate y m (d + daysIn m y)).Equal (NewDate y (m + 1) d) = true ∧
    (NewDate y m (d + daysIn m y)).Year = (NewDate y (m + 1) d).Year ∧
    (NewDate y m (d + daysIn m y)).Month = (NewDate y (m + 1) d).Month ∧
    (NewDate y m (d + daysIn m y)).Day = (NewDate y (m + 1) d).Day ∧
    (NewDate y m (d + daysIn m y)).String = (NewDate y (m + 1) d).String ∧
    NewDate y 13 d = NewDate (y + 1) January d ∧
    NewDate 2020 January 32 = NewDate 2020 February 1 ∧
    (NewDate 2020 December 32).Year = 2021 := by
  have hz : absoluteZeroYear = -292277022399 := rfl
  have iy : isInt64 y := ⟨by omega, by omega⟩
  have iy1 : isInt64 (y + 1) := ⟨by omega, by omega⟩
  have e1 : y + (m - 1) / 12 = y := by omega
  have e2 : (m - 1) % 12 + 1 = m := by omega
  have key : NewDate y m (d + daysIn m y) = NewDate y (m + 1) d := by
    simp only [NewDate]
    rw [Date_eq y m _ iy ⟨by omega, by omega⟩ ⟨by omega, by omega⟩ hd2 (by omega)
        (by rw [e1]; exact iy),
      Date_eq y (m + 1) d iy ⟨by omega, by omega⟩ ⟨by omega, by omega⟩ hd1 (by omega)
        ⟨by omega, by omega⟩]
    simp only [add_sub_cancel_right]
    rw [e1, e2, dayNumber_next_month y m d hm1 hm2]
  have k13 : NewDate y 13 d = NewDate (y + 1) January d := by
    simp only [NewDate, January]
    rw [Date_eq y 13 d iy (by decide) (by decide) hd1 (by omega) ⟨by omega, by omega⟩,
      Date_eq (y + 1) 1 d iy1 (by decide) (by decide) hd1 (by omega) ⟨by omega, by omega⟩]
    have a1 : y + (13 - 1) / 12 = y + 1 := by omega
    have a2 : y + 1 + (1 - 1) / 12 = y + 1 := by omega
    rw [a1, a2]
    rfl
  rw [key]
  exact ⟨rfl, Equal_self _, rfl, rfl, rfl, rfl, k13, by decide, by decide⟩

theorem NewDate_day_overflow_witness :
    absoluteZeroYear ≤ 2020 ∧ (2020 : Int) + 1 < 2 ^ 63 ∧ (1 : Int) ≤ 2 ∧ (2 : Int) ≤ 12 ∧
    isInt64 1 ∧ isInt64 (1 + daysIn 2 2020) ∧
    NewDate 2020 2 (1 + daysIn 2 2020) = NewDate 2020 (2 + 1) 1 ∧
    (NewDate 2020 2 (1 + daysIn 2 2020)).Equal (NewDate 2020 (2 + 1) 1) = true ∧
    (NewDate 2020 2 (1 + daysIn 2 2020)).Year = (NewDate 2020 (2 + 1) 1).Year ∧
    (NewDate 2020 2 (1 + daysIn 2 2020)).Month = (NewDate 2020 (2 + 1) 1).Month ∧
    (NewDate 2020 2 (1 + daysIn 2 2020)).Day = (NewDate 2020 (2 + 1) 1).Day ∧
    (NewDate 2020 2 (1 + daysIn 2 2020)).String = (NewDate 2020 (2 + 1) 1).String ∧
    NewDate 2020 13 1 = NewDate (2020 + 1) January 1 ∧
    NewDate 2020 January 32 = NewDate 2020 February 1 ∧
    (NewDate 2020 December 32).Year = 2021 :=
  ⟨by decide, by decide, by decide, by decide, by decide, by decide,
    NewDate_day_overflow 2020 2 1 (by decide) (by decide) (by decide) (by decide) (by decide)
      (by decide)⟩

set_option maxRecDepth 100000 in
theorem below_epoch_pair :
    (NewDate (-292277022500) December (1 + daysIn December (-292277022500))).Equal
      (NewDate (-292277022500) (December + 1) 1) = false ∧
    (NewDate (-292277022500) December (1 + daysIn December (-292277022500))).Day = 8 ∧
    (NewDate (-292277022500) (December + 1) 1).Day = 9 ∧
    daysIn December (-292277022500) = 31 ∧
    (NewDate (-292277022500) December (1 + daysIn December (-292277022500))).civil
      = (292277026754, 11, 8) ∧
    (NewDate (-292277022500) (December + 1) 1).civil = (292277026754, 11, 9) ∧
    (NewDate (-292277022500) December (1 + daysIn December (-292277022500))).t.sec
      = -9223371969735560832 ∧
    (NewDate (-292277022500) (December + 1) 1).t.sec = -9223371969735474432 := by
  decide

/-- C1 as stated fails for a year before the absolute epoch year
-292277022399: 32 December of the year -292277022500 and the first day of
month 13 of that year are not `Equal`.  `daysSinceEpoch` counts the year in a
`uint64`, where the years before the epoch wrap around, and the wrapped count
gives the year -292277022500 one day more than the calendar does. -/
theorem NewDate_day_overflow_below_epoch :
    (NewDate (-292277022500) December (1 + daysIn December (-292277022500))).Equal
      (NewDate (-292277022500) (December + 1) 1) = false ∧
    (NewDate (-292277022500) December (1 + daysIn December (-292277022500))).Day = 8 ∧
    (NewDate (-292277022500) (December + 1) 1).Day = 9 :=
  ⟨below_epoch_pair.1, below_epoch_pair.2.1, below_epoch_pair.2.2.1⟩

/-- C2, for the days the library can count: for every year `y`, month `m` in
1..12 and `k >= 0` smaller than the length `L` of the month before `(y, m)`,
such that the day `L - k` of that month is representable (it lies between
-292277022399-01-01 and 292277026854-11-09), `NewDate y m (-k)` is that day
(of December of `y-1` when `m` is January): it equals the date built from
these three numbers and its `Year`, `Month`, `Day` are these numbers.  In
particular `NewDate 2020 January 0 = NewDate 2019 December 31` and `NewDate
2020 January (-1) = NewDate 2019 December 30`. -/
theorem NewDate_day_underflow (y m k : Int) (hm1 : 1 ≤ m) (hm2 : m ≤ 12) (hk0 : 0 ≤ k)
    (hk : k < daysIn (prevMonth y m).2 (prevMonth y m).1)
    (hr : Representable (prevMonth y m).1 (prevMonth y m).2
      (daysIn (prevMonth y m).2 (prevMonth y m).1 - k)) :
    NewDate y m (-k) =
      NewDate (prevMonth y m).1 (prevMonth y m).2
        (daysIn (prevMonth y m).2 (prevMonth y m).1 - k) ∧
    (NewDate y m (-k)).Year = (prevMonth y m).1 ∧
    (NewDate y m (-k)).Month = (prevMonth y m).2 ∧
    (NewDate y m (-k)).Day = daysIn (prevMonth y m).2 (prevMonth y m).1 - k ∧
    NewDate 2020 January 0 = NewDate 2019 December 31 ∧
    NewDate 2020 January (-1) = NewDate 2019 December 30 := by
  have hp : 1 ≤ (prevMonth y m).2 ∧ (prevMonth y m).2 ≤ 12 := by
    simp only [prevMonth, January, December]
    split_ifs with hj
    · simp
    · constructor <;> simp only <;> omega
  have hv : validDate (prevMonth y m).1 (prevMonth y m).2
      (daysIn (prevMonth y m).2 (prevMonth y m).1 - k) :=
    ⟨hp.1, hp.2, by omega, by omega⟩
  have hL := daysIn_le (prevMonth y m).1 (prevMonth y m).2 hp.1 hp.2
  obtain ⟨py0, py1⟩ := hr.year_lt hv
  have hpy : (prevMonth y m).1 ≤ y ∧ y ≤ (prevMonth y m).1 + 1 := by
    simp only [prevMonth]
    split_ifs <;> constructor <;> simp only <;> omega
  have hz : absoluteZeroYear = -292277022399 := rfl
  have e1 : y + (m - 1) / 12 = y := by omega
  have e2 : (m - 1) % 12 + 1 = m := by omega
  have e3 : (prevMonth y m).1 + ((prevMonth y m).2 - 1) / 12 = (prevMonth y m).1 := by omega
  have e4 : ((prevMonth y m).2 - 1) % 12 + 1 = (prevMonth y m).2 := by omega
  have key : NewDate y m (-k) =
      NewDate (prevMonth y m).1 (prevMonth y m).2
        (daysIn (prevMonth y m).2 (prevMonth y m).1 - k) := by
    simp only [NewDate]
    rw [Date_eq y m (-k) ⟨by omega, by omega⟩ ⟨by omega, by omega⟩ ⟨by omega, by omega⟩
        ⟨by omega, by omega⟩ (by omega) ⟨by omega, by omega⟩,
      Date_eq _ _ _ ⟨by omega, by omega⟩ ⟨by omega, by omega⟩ ⟨by omega, by omega⟩
        ⟨by omega, by omega⟩ (by omega) ⟨by omega, by omega⟩]
    rw [e1, e2, e3, e4, dayNumber_prev_month y m k hm1 hm2]
  obtain ⟨c1, c2, c3⟩ := NewDate_civil _ _ _ hv hr
  rw [key]
  exact ⟨rfl, c1, c2, c3, by decide, by decide⟩

theorem NewDate_day_underflow_witness :
    (1 : Int) ≤ 3 ∧ (3 : Int) ≤ 12 ∧ (0 : Int) ≤ 28 ∧
    (28 : Int) < daysIn (prevMonth 2020 3).2 (prevMonth 2020 3).1 ∧
    Representable (prevMonth 2020 3).1 (prevMonth 2020 3).2
      (daysIn (prevMonth 2020 3).2 (prevMonth 2020 3).1 - 28) ∧
    NewDate 2020 3 (-28) =
      NewDate (prevMonth 2020 3).1 (prevMonth 2020 3).2
        (daysIn (prevMonth 2020 3).2 (prevMonth 2020 3).1 - 28) ∧
    (NewDate 2020 3 (-28)).Year = (prevMonth 2020 3).1 ∧
    (NewDate 2020 3 (-28)).Month = (prevMonth 2020 3).2 ∧
    (NewDate 2020 3 (-28)).Day = daysIn (prevMonth 2020 3).2 (prevMonth 2020 3).1 - 28 ∧
    NewDate 2020 January 0 = NewDate 2019 December 31 ∧
    NewDate 2020 January (-1) = NewDate 2019 December 30 :=
  ⟨by decide, by decide, by decide, by decide, by decide,
    NewDate_day_underflow 2020 3 28 (by decide) (by decide) (by decide) (by decide) (by decide)⟩

set_option maxRecDepth 100000 in
theorem wrapped_underflow :
    (0 : Int) < daysIn (prevMonth 300000000000 January).2 (prevMonth 300000000000 January).1 ∧
    (prevMonth 300000000000 January).1 = 299999999999 ∧
    (NewDate 300000000000 January (-0)).Year = -284554049254 ∧
    (NewDate 300000000000 January (-0)).Year ≠ (prevMonth 300000000000 January).1 ∧
    (NewDate 300000000000 January (-0)).civil = (-284554049254, 2, 21) ∧
    prevMonth 300000000000 January = (299999999999, 12) ∧
    daysIn (prevMonth 300000000000 January).2 (prevMonth 300000000000 January).1 - 0 = 31 := by
  decide

/-- C2 as stated fails for a year beyond the days the library can count:
`NewDate(300000000000, January, 0)` should be 31 December 299999999999, but
the seconds of that day exceed the `uint64` of `time.Date` and the date reads
back as -284554049254-02-21. -/
theorem NewDate_day_underflow_beyond_range :
    (0 : Int) < daysIn (prevMonth 300000000000 January).2 (prevMonth 300000000000 January).1 ∧
    (prevMonth 300000000000 January).1 = 299999999999 ∧
    (NewDate 300000000000 January (-0)).Year = -284554049254 ∧
    (NewDate 300000000000 January (-0)).Year ≠ (prevMonth 300000000000 January).1 :=
  ⟨wrapped_underflow.1, wrapped_underflow.2.1, wrapped_underflow.2.2.1,
    wrapped_underflow.2.2.2.1⟩

end date


namespace time

/-! ## Formatting with the layout `2006-01-02` -/

theorem appendIntLoop_lt (fuel u : Nat) (buf : List Char) (h : u < 10) :
    appendIntLoop fuel u buf = Char.ofNat (48 + u) :: buf := by
  cases fuel with
  | zero => rfl
  | succ n =>
    rw [appendIntLoop, if_neg (by omega)]
    rfl

theorem appendIntLoop_ge (fuel u : Nat) (buf : List Char) (h : 10 ≤ u) (hf : 1 ≤ fuel) :
    appendIntLoop fuel u buf =
      appendIntLoop (fuel - 1) (u / 10) (Char.ofNat (48 + u % 10) :: buf) := by
  cases fuel with
  | zero => omega
  | succ n =>
    rw [appendIntLoop, if_pos (by omega)]
    have e : u - u / 10 * 10 = u % 10 := by omega
    simp only [e, Nat.add_sub_cancel]
    rfl

theorem appendInt_nat (b : List Char) (n width : Nat) :
    appendInt b (n : Int) width =
      b ++ List.replicate (width - (appendIntLoop n n []).length) '0' ++ appendIntLoop n n [] := by
  have h : ¬ ((n : Int) < 0) := by omega
  simp [appendInt, h]

/-- A number below 100 is formatted with width 2 as its two decimal
digits. -/
theorem appendInt_two (b : List Char) (a0 a1 : Nat) (h0 : a0 < 10) (h1 : a1 < 10) :
    appendInt b ((10 * a0 + a1 : Nat) : Int) 2 =
      b ++ [Char.ofNat (48 + a0), Char.ofNat (48 + a1)] := by
  rw [appendInt_nat]
  by_cases hz : a0 = 0
  · subst hz
    rw [appendIntLoop_lt _ _ _ (by omega)]
    simp
  · rw [appendIntLoop_ge _ _ _ (by omega) (by omega), appendIntLoop_lt _ _ _ (by omega)]
    have e1 : (10 * a0 + a1) / 10 = a0 := by omega
    have e2 : (10 * a0 + a1) % 10 = a1 := by omega
    simp [e1, e2]

/-- A number below 10000 is formatted with width 4 as its four decimal
digits. -/
theorem appendInt_four (b : List Char) (a0 a1 a2 a3 : Nat) (h0 : a0 < 10) (h1 : a1 < 10)
    (h2 : a2 < 10) (h3 : a3 < 10) :
    appendInt b ((1000 * a0 + 100 * a1 + 10 * a2 + a3 : Nat) : Int) 4 =
      b ++ [Char.ofNat (48 + a0), Char.ofNat (48 + a1), Char.ofNat (48 + a2),
        Char.ofNat (48 + a3)] := by
  rw [appendInt_nat]
  have z : Char.ofNat 48 = '0' := rfl
  by_cases hz0 : a0 = 0
  · by_cases hz1 : a1 = 0
    · by_cases hz2 : a2 = 0
      · have en : 1000 * a0 + 100 * a1 + 10 * a2 + a3 = a3 := by omega
        rw [en, appendIntLoop_lt _ _ _ (by omega), hz0, hz1, hz2]
        simp [z]
      · have en : 1000 * a0 + 100 * a1 + 10 * a2 + a3 = 10 * a2 + a3 := by omega
        rw [en, appendIntLoop_ge _ _ _ (by omega) (by omega),
          appendIntLoop_lt _ _ _ (by omega), hz0, hz1]
        have e1 : (10 * a2 + a3) / 10 = a2 := by omega
        have e2 : (10 * a2 + a3) % 10 = a3 := by omega
        rw [e1, e2]
        simp [z]
    · have en : 1000 * a0 + 100 * a1 + 10 * a2 + a3 = 10 * (10 * a1 + a2) + a3 := by omega
      rw [en, appendIntLoop_ge _ _ _ (by omega) (by omega)]
      have e1 : (10 * (10 * a1 + a2) + a3) / 10 = 10 * a1 + a2 := by omega
      have e2 : (10 * (10 * a1 + a2) + a3) % 10 = a3 := by omega
      rw [e1, e2, appendIntLoop_ge _ _ _ (by omega) (by omega)]
      have e3 : (10 * a1 + a2) / 10 = a1 := by omega
      have e4 : (10 * a1 + a2) % 10 = a2 := by omega
      rw [e3, e4, appendIntLoop_lt _ _ _ (by omega), hz0]
      simp [z]
  · have en : 1000 * a0 + 100 * a1 + 10 * a2 + a3 = 10 * (10 * (10 * a0 + a1) + a2) + a3 := by
      omega
    rw [en, appendIntLoop_ge _ _ _ (by omega) (by omega)]
    have e1 : (10 * (10 * (10 * a0 + a1) + a2) + a3) / 10 = 10 * (10 * a0 + a1) + a2 := by omega
    have e2 : (10 * (10 * (10 * a0 + a1) + a2) + a3) % 10 = a3 := by omega
    rw [e1, e2, appendIntLoop_ge _ _ _ (by omega) (by omega)]
    have e3 : (10 * (10 * a0 + a1) + a2) / 10 = 10 * a0 + a1 := by omega
    have e4 : (10 * (10 * a0 + a1) + a2) % 10 = a2 := by omega
    rw [e3, e4, appendIntLoop_ge _ _ _ (by omega) (by omega)]
    have e5 : (10 * a0 + a1) / 10 = a0 := by omega
    have e6 : (10 * a0 + a1) % 10 = a1 := by omega
    rw [e5, e6, appendIntLoop_lt _ _ _ (by omega)]
    simp

theorem ofNat_digit (c : Char) (h : date.isAsciiDigit c = true) :
    Char.ofNat (48 + (c.toNat - 48)) = c := by
  rw [isAsciiDigit_iff] at h
  have : 48 + (c.toNat - 48) = c.toNat := by omega
  rw [this, Char.ofNat_toNat]

end time


namespace time

theorem FormatDate_of_Date (t : Time) (y m d : Int) (h : t.Date = (y, m, d)) :
    t.FormatDate =
      String.mk (appendInt (appendInt (appendInt [] y 4 ++ ['-']) m 2 ++ ['-']) d 2) := by
  unfold Time.FormatDate
  unfold Time.Date at h
  generalize absDate t.abs true = r at h ⊢
  obtain ⟨a, b, c, e⟩ := r
  simp only [Prod.mk.injEq] at h
  obtain ⟨rfl, rfl, rfl⟩ := h
  rfl

theorem FormatDate_valid (y m d : Int) (h : validDate y m d) (hr : Representable y m d) :
    (Date y m d 0 0 0 0).FormatDate =
      String.mk (appendInt (appendInt (appendInt [] y 4 ++ ['-']) m 2 ++ ['-']) d 2) :=
  FormatDate_of_Date _ y m d (Date_roundtrip y m d h hr)

end time

namespace date

open time

/-- C3: for every string `s` of the form YYYY-MM-DD (four ASCII digits, two
digits, two digits, separated by hyphens) that names a real calendar date
(month in 1..12, day in 1..daysIn(month, year)), `Parse s` returns no error
and `(Parse s).String` is `s` again. -/
theorem Parse_String_roundtrip (s : GoString) (h : isISODate s = true) :
    (Parse s).2 = none ∧ (Parse s).1.String = s := by
  obtain ⟨y1, y2, y3, y4, m1, m2, d1, d2, hs, a1, a2, a3, a4, a5, a6, a7, a8, hv⟩ :=
    (isISODate_iff s).1 h
  have hp := ParseDate_of_fields s y1 y2 y3 y4 m1 m2 d1 d2 hs a1 a2 a3 a4 a5 a6 a7 a8 hv
  have b1 := (isAsciiDigit_iff y1).1 a1
  have b2 := (isAsciiDigit_iff y2).1 a2
  have b3 := (isAsciiDigit_iff y3).1 a3
  have b4 := (isAsciiDigit_iff y4).1 a4
  have b5 := (isAsciiDigit_iff m1).1 a5
  have b6 := (isAsciiDigit_iff m2).1 a6
  have b7 := (isAsciiDigit_iff d1).1 a7
  have b8 := (isAsciiDigit_iff d2).1 a8
  have ey : digitVal y1 * 1000 + digitVal y2 * 100 + digitVal y3 * 10 + digitVal y4 =
      ((1000 * (y1.toNat - 48) + 100 * (y2.toNat - 48) + 10 * (y3.toNat - 48)
        + (y4.toNat - 48) : Nat) : Int) := by
    simp only [digitVal_eq]; omega
  have em : digitVal m1 * 10 + digitVal m2 =
      ((10 * (m1.toNat - 48) + (m2.toNat - 48) : Nat) : Int) := by
    simp only [digitVal_eq]; omega
  have ed : digitVal d1 * 10 + digitVal d2 =
      ((10 * (d1.toNat - 48) + (d2.toNat - 48) : Nat) : Int) := by
    simp only [digitVal_eq]; omega
  have hrep := Representable_of_four_digits _ _ _ hv (by simp only [digitVal_eq]; omega)
    (by simp only [digitVal_eq]; omega)
  constructor
  · simp [Parse, hp]
  · simp only [Parse, hp, Date.String]
    rw [FormatDate_valid _ _ _ hv hrep, ey, em, ed,
      appendInt_four _ _ _ _ _ (by omega) (by omega) (by omega) (by omega),
      appendInt_two _ _ _ (by omega) (by omega), appendInt_two _ _ _ (by omega) (by omega)]
    simp only [ofNat_digit, a1, a2, a3, a4, a5, a6, a7, a8, List.nil_append, List.cons_append,
      List.append_assoc]
    rw [← hs]

theorem Parse_String_roundtrip_witness :
    isISODate "2020-02-29" = true ∧ (Parse "2020-02-29").2 = none ∧
      (Parse "2020-02-29").1.String = "2020-02-29" :=
  ⟨by decide, Parse_String_roundtrip "2020-02-29" (by decide)⟩

theorem Parse_ok_iff (s : GoString) : (Parse s).2 = none ↔ isISODate s = true := by
  rw [← ParseDate_ok_iff]
  simp [Parse]

/-- C4: `Parse s` returns no error if and only if `s` is exactly ten
characters DDDD-DD-DD (ASCII digits, hyphens at the 5th and 8th place) whose
month is in 1..12 and whose day is in 1..daysIn(month, year).  Every other
string returns an error, among them other separators, other field orders or
digit counts, a signed year, month 13, a day out of range, and trailing time
text. -/
theorem Parse_strict :
    (∀ s : GoString, (Parse s).2 = none ↔ isISODate s = true) ∧
    (Parse "2020/01/02").2 ≠ none ∧ (Parse "01/2020/02").2 ≠ none ∧
    (Parse "01-02-2020").2 ≠ none ∧ (Parse "01-02").2 ≠ none ∧
    (Parse "2020 01 02").2 ≠ none ∧ (Parse "-0001-01-01").2 ≠ none ∧
    (Parse "2020-13-01").2 ≠ none ∧ (Parse "2020-01-50").2 ≠ none ∧
    (Parse "2020-01-02 10:00:00").2 ≠ none ∧
    (Parse "0001-01-01").2 = none ∧ (Parse "2020-01-31").2 = none ∧
    NewDate 2020 January 50 = NewDate 2020 February 19 :=
  ⟨Parse_ok_iff, by decide, by decide, by decide, by decide, by decide, by decide, by decide,
    by decide, by decide, by decide, by decide, by decide⟩

end date


namespace time

/-! ## Rounding to a float64 -/

theorem roundHalfEven_pos (num den : Nat) (h : den ≤ num) (hd : 0 < den) :
    0 < roundHalfEven num den := by
  have hq : 0 < num / den := Nat.div_pos h hd
  simp only [roundHalfEven]
  split_ifs <;> omega

theorem log2Loop_eq (fuel : Nat) : ∀ n : Nat, n ≤ fuel → log2Loop fuel n = Nat.log2 n := by
  induction fuel with
  | zero =>
    intro n h
    have hn : n = 0 := by omega
    subst hn
    rw [Nat.log2]
    rfl
  | succ k ih =>
    intro n h
    rw [log2Loop, Nat.log2]
    split_ifs with c
    · rw [ih (n / 2) (by omega)]
    · rfl

theorem log2_eq (n : Nat) : log2 n = Nat.log2 n := log2Loop_eq n n (le_refl n)

/-- The exponent that `F64.round` settles on is not above the binary
logarithm of the fraction. -/
theorem round_exponent (a q : Nat) (ha : 0 < a) (l0 l : Int)
    (hl0 : l0 = (log2 a : Int) - (log2 q : Int))
    (hl : l = if q * 2 ^ l0.toNat ≤ a * 2 ^ (-l0).toNat then l0 else l0 - 1) :
    q * 2 ^ l.toNat ≤ a * 2 ^ (-l).toNat := by
  have h1 : 2 ^ a.log2 ≤ a := Nat.log2_self_le (by omega)
  have h2 : q < 2 ^ (q.log2 + 1) := Nat.lt_log2_self
  rw [log2_eq, log2_eq] at hl0
  split_ifs at hl with c
  · rw [hl]; exact c
  · rw [hl]
    rcases Nat.lt_trichotomy a.log2 q.log2 with hlt | heq | hgt
    · -- the fraction is below 1
      obtain ⟨k, hk⟩ : ∃ k : Nat, q.log2 = a.log2 + k := ⟨q.log2 - a.log2, by omega⟩
      have e1 : (l0 - 1).toNat = 0 := by omega
      have e2 : (-(l0 - 1)).toNat = k + 1 := by omega
      rw [e1, e2, pow_zero, mul_one]
      have : 2 ^ (q.log2 + 1) = 2 ^ a.log2 * 2 ^ (k + 1) := by
        rw [hk, ← pow_add, Nat.add_assoc]
      calc q ≤ 2 ^ (q.log2 + 1) := le_of_lt h2
        _ = 2 ^ a.log2 * 2 ^ (k + 1) := this
        _ ≤ a * 2 ^ (k + 1) := Nat.mul_le_mul_right _ h1
    · have e1 : (l0 - 1).toNat = 0 := by omega
      have e2 : (-(l0 - 1)).toNat = 1 := by omega
      rw [e1, e2, pow_zero, mul_one, pow_one]
      rw [← heq, pow_succ] at h2
      omega
    · obtain ⟨k, hk⟩ : ∃ k : Nat, a.log2 = q.log2 + 1 + k := ⟨a.log2 - q.log2 - 1, by omega⟩
      have e1 : (l0 - 1).toNat = k := by omega
      have e2 : (-(l0 - 1)).toNat = 0 := by omega
      rw [e1, e2, pow_zero, mul_one]
      have : 2 ^ a.log2 = 2 ^ (q.log2 + 1) * 2 ^ k := by
        rw [hk, ← pow_add]
      calc q * 2 ^ k ≤ 2 ^ (q.log2 + 1) * 2 ^ k := Nat.mul_le_mul_right _ (le_of_lt h2)
        _ = 2 ^ a.log2 := this.symm
        _ ≤ a := h1

theorem round_mantissa_pos (a q : Nat) (hq : 0 < q) (l : Int)
    (h : q * 2 ^ l.toNat ≤ a * 2 ^ (-l).toNat) :
    0 < roundHalfEven (a * 2 ^ (-(l - 52)).toNat) (q * 2 ^ (l - 52).toNat) := by
  refine roundHalfEven_pos _ _ ?_ (Nat.mul_pos hq (pow_pos (by decide) _))
  rcases le_or_lt 52 l with h52 | h52
  · obtain ⟨k, hk⟩ : ∃ k : Nat, l = 52 + k := ⟨(l - 52).toNat, by omega⟩
    have e1 : (l - 52).toNat = k := by omega
    have e2 : (-(l - 52)).toNat = 0 := by omega
    have e3 : l.toNat = 52 + k := by omega
    have e4 : (-l).toNat = 0 := by omega
    rw [e3, e4, pow_zero, mul_one] at h
    rw [e1, e2, pow_zero, mul_one]
    calc q * 2 ^ k ≤ q * 2 ^ (52 + k) :=
          Nat.mul_le_mul_left _ (Nat.pow_le_pow_right (by decide) (by omega))
      _ ≤ a := h
  · have e1 : (l - 52).toNat = 0 := by omega
    rw [e1, pow_zero, mul_one]
    rcases le_or_lt 0 l with h0 | h0
    · have e4 : (-l).toNat = 0 := by omega
      rw [e4, pow_zero, mul_one] at h
      calc q ≤ q * 2 ^ l.toNat := Nat.le_mul_of_pos_right _ (pow_pos (by decide) _)
        _ ≤ a := h
        _ ≤ a * 2 ^ (-(l - 52)).toNat := Nat.le_mul_of_pos_right _ (pow_pos (by decide) _)
    · have e3 : l.toNat = 0 := by omega
      rw [e3, pow_zero, mul_one] at h
      calc q ≤ a * 2 ^ (-l).toNat := h
        _ ≤ a * 2 ^ (-(l - 52)).toNat :=
          Nat.mul_le_mul_left _ (Nat.pow_le_pow_right (by decide) (by omega))

theorem F64.round_mantissa (p : Int) (q : Nat) (hq : 0 < q) (hp : p ≠ 0) :
    ∃ M : Nat, 0 < M ∧ (F64.round p q).m = if p < 0 then -(M : Int) else (M : Int) := by
  have ha : 0 < p.natAbs := Int.natAbs_pos.2 hp
  exact ⟨_, round_mantissa_pos p.natAbs q hq _ (round_exponent p.natAbs q ha _ _ rfl rfl),
    by simp only [F64.round, hp, if_false]⟩

theorem SameSign.of_cases {a b : Int} (h1 : 0 < b → 0 < a) (h2 : b < 0 → a < 0)
    (h3 : b = 0 → a = 0) : SameSign a b := by
  refine ⟨⟨fun h => ?_, h1⟩, ⟨fun h => ?_, h2⟩, ⟨fun h => ?_, h3⟩⟩
  · rcases lt_trichotomy b 0 with c | c | c
    · have := h2 c; omega
    · have := h3 c; omega
    · exact c
  · rcases lt_trichotomy b 0 with c | c | c
    · exact c
    · have := h3 c; omega
    · have := h1 c; omega
  · rcases lt_trichotomy b 0 with c | c | c
    · have := h2 c; omega
    · exact c
    · have := h1 c; omega

theorem SameSign.trans {a b c : Int} (h1 : SameSign a b) (h2 : SameSign b c) : SameSign a c :=
  ⟨h1.1.trans h2.1, h1.2.1.trans h2.2.1, h1.2.2.trans h2.2.2⟩

theorem SameSign.mul_pos (a c : Int) (hc : 0 < c) : SameSign (a * c) a := by
  refine SameSign.of_cases (fun h => Int.mul_pos h hc) (fun h => mul_neg_of_neg_of_pos h hc) ?_
  intro h
  rw [h, zero_mul]

theorem SameSign.nonneg {a b : Int} (h : SameSign a b) (hb : 0 ≤ b) : 0 ≤ a := by
  rcases lt_or_eq_of_le hb with c | c
  · exact le_of_lt (h.1.2 c)
  · exact le_of_eq (h.2.2.2 c.symm).symm

theorem SameSign.nonpos {a b : Int} (h : SameSign a b) (hb : b ≤ 0) : a ≤ 0 := by
  rcases lt_or_eq_of_le hb with c | c
  · exact le_of_lt (h.2.1.2 c)
  · exact le_of_eq (h.2.2.2 c)

/-- Rounding keeps the sign: the mantissa of the `float64` nearest to
`p / q` is positive, negative or zero as `p` is. -/
theorem F64.round_sign (p : Int) (q : Nat) (hq : 0 < q) : SameSign (F64.round p q).m p := by
  by_cases hp : p = 0
  · subst hp
    exact ⟨Iff.rfl, Iff.rfl, Iff.rfl⟩
  · obtain ⟨M, hM, e⟩ := F64.round_mantissa p q hq hp
    rw [e]
    unfold SameSign
    split_ifs with hneg <;> omega

theorem F64.toRat_sign (x : F64) :
    (0 < x.toRat ↔ 0 < x.m) ∧ (x.toRat < 0 ↔ x.m < 0) ∧ (x.toRat = 0 ↔ x.m = 0) := by
  have h2 : (0 : ℚ) < (2 : ℚ) ^ x.e := zpow_pos (by norm_num) _
  simp only [F64.toRat]
  refine ⟨?_, ?_, ?_⟩
  · rw [mul_pos_iff_of_pos_right h2, Int.cast_pos]
  · rw [mul_neg_iff]
    constructor
    · rintro (⟨-, h⟩ | ⟨h, -⟩)
      · exact absurd h2 (not_lt.2 (le_of_lt h))
      · exact Int.cast_lt_zero.1 h
    · intro h
      exact Or.inr ⟨Int.cast_lt_zero.2 h, h2⟩
  · rw [mul_eq_zero, Int.cast_eq_zero]
    constructor
    · rintro (h | h)
      · exact h
      · exact absurd h (ne_of_gt h2)
    · intro h
      exact Or.inl h

theorem F64.ofInt_sign (i : Int) : SameSign (F64.ofInt i).m i :=
  F64.round_sign i 1 (by decide)

/-- A quotient by a positive `float64` has the sign of the dividend. -/
theorem F64.div_sign (x y : F64) (hy : 0 < y.m) : SameSign (F64.div x y).m x.m := by
  have hq : 0 < y.m.natAbs * 2 ^ (y.e - x.e).toNat :=
    Nat.mul_pos (Int.natAbs_pos.2 (by omega)) (pow_pos (by decide) _)
  have hn : ¬ y.m < 0 := by omega
  have e : F64.div x y = F64.round (x.m * 2 ^ (x.e - y.e).toNat)
      (y.m.natAbs * 2 ^ (y.e - x.e).toNat) := by
    simp only [F64.div, hn, if_false]
  rw [e]
  exact (F64.round_sign _ _ hq).trans (SameSign.mul_pos _ _ (pow_pos (by decide) _))

/-- The sum of two `float64`s has the sign of the exact sum. -/
theorem F64.add_sign (x y : F64) :
    SameSign (F64.add x y).m
      (x.m * 2 ^ (x.e - min x.e y.e).toNat + y.m * 2 ^ (y.e - min x.e y.e).toNat) :=
  (F64.round_sign _ _ (pow_pos (by decide) _)).trans
    (SameSign.mul_pos _ _ (pow_pos (by decide) _))

/-- The sum of two `float64`s that are not negative is positive when one of
them is, and zero when both are. -/
theorem F64.add_sign_nonneg (x y : F64) (hx : 0 ≤ x.m) (hy : 0 ≤ y.m) :
    (0 < x.m ∨ 0 < y.m → 0 < (F64.add x y).m) ∧ (x.m = 0 → y.m = 0 → (F64.add x y).m = 0) := by
  have h := F64.add_sign x y
  have p1 : (0 : Int) < 2 ^ (x.e - min x.e y.e).toNat := pow_pos (by decide) _
  have p2 : (0 : Int) < 2 ^ (y.e - min x.e y.e).toNat := pow_pos (by decide) _
  have f1 : 0 ≤ x.m * 2 ^ (x.e - min x.e y.e).toNat := mul_nonneg hx (le_of_lt p1)
  have f2 : 0 ≤ y.m * 2 ^ (y.e - min x.e y.e).toNat := mul_nonneg hy (le_of_lt p2)
  constructor
  · intro hxy
    apply h.1.2
    rcases hxy with c | c
    · exact add_pos_of_pos_of_nonneg (Int.mul_pos c p1) f2
    · exact add_pos_of_nonneg_of_pos f1 (Int.mul_pos c p2)
  · intro e1 e2
    apply h.2.2.2
    rw [e1, e2, zero_mul, zero_mul, add_zero]

/-- The sum of two `float64`s that are not positive is negative when one of
them is. -/
theorem F64.add_sign_nonpos (x y : F64) (hx : x.m ≤ 0) (hy : y.m ≤ 0)
    (hxy : x.m < 0 ∨ y.m < 0) : (F64.add x y).m < 0 := by
  have h := F64.add_sign x y
  have p1 : (0 : Int) < 2 ^ (x.e - min x.e y.e).toNat := pow_pos (by decide) _
  have p2 : (0 : Int) < 2 ^ (y.e - min x.e y.e).toNat := pow_pos (by decide) _
  have f1 : x.m * 2 ^ (x.e - min x.e y.e).toNat ≤ 0 :=
    mul_nonpos_of_nonpos_of_nonneg hx (le_of_lt p1)
  have f2 : y.m * 2 ^ (y.e - min x.e y.e).toNat ≤ 0 :=
    mul_nonpos_of_nonpos_of_nonneg hy (le_of_lt p2)
  apply h.2.1.2
  rcases hxy with c | c
  · exact add_neg_of_neg_of_nonpos (mul_neg_of_neg_of_pos c p1) f2
  · exact add_neg_of_nonpos_of_neg f1 (mul_neg_of_neg_of_pos c p2)

theorem tmod_bounds (a b : Int) (hb : 0 < b) :
    b * a.tdiv b + a.tmod b = a ∧ -b < a.tmod b ∧ a.tmod b < b := by
  refine ⟨Int.tdiv_add_tmod a b, ?_, Int.tmod_lt_of_pos a hb⟩
  by_cases h : 0 ≤ a
  · have := Int.tmod_nonneg b h
    omega
  · have h1 := Int.tmod_lt_of_pos (-a) hb
    have h2 := Int.tmod_def (-a) b
    have h3 := Int.tmod_def a b
    rw [Int.neg_tdiv] at h2
    have h4 : b * -(a.tdiv b) = -(b * a.tdiv b) := by ring
    rw [h4] at h2
    omega

/-- Go's quotient and remainder have the sign of the dividend. -/
theorem tdiv_tmod_sign (a b : Int) (hb : 0 < b) :
    (0 ≤ a → 0 ≤ a.tdiv b ∧ 0 ≤ a.tmod b) ∧ (a ≤ 0 → a.tdiv b ≤ 0 ∧ a.tmod b ≤ 0) := by
  constructor
  · intro h
    exact ⟨Int.tdiv_nonneg h (le_of_lt hb), Int.tmod_nonneg b h⟩
  · intro h
    have h1 : 0 ≤ (-a).tdiv b := Int.tdiv_nonneg (by omega) (le_of_lt hb)
    have h2 : 0 ≤ (-a).tmod b := Int.tmod_nonneg b (by omega)
    have h3 := Int.tmod_def (-a) b
    have h4 := Int.tmod_def a b
    rw [Int.neg_tdiv] at h1 h3
    have h5 : b * -(a.tdiv b) = -(b * a.tdiv b) := by ring
    rw [h5] at h3
    constructor <;> omega

/-- The hours of a duration, as a `float64`, have the sign of the
duration. -/
theorem Duration.Hours_sign (d : Int) : SameSign (Duration.Hours d).m d := by
  have hH : (0 : Int) < Hour := by decide
  obtain ⟨b1, b2, b3⟩ := tmod_bounds d Hour hH
  obtain ⟨s1, s2⟩ := tdiv_tmod_sign d Hour hH
  have hc : 0 < (F64.ofInt (60 * 60 * 1000000000)).m :=
    (F64.ofInt_sign (60 * 60 * 1000000000)).1.2 (by decide)
  have hx := F64.ofInt_sign (d.tdiv Hour)
  have hy := (F64.div_sign (F64.ofInt (d.tmod Hour)) (F64.ofInt (60 * 60 * 1000000000)) hc).trans
    (F64.ofInt_sign (d.tmod Hour))
  simp only [Duration.Hours]
  generalize (F64.ofInt (d.tdiv Hour)) = x at hx ⊢
  generalize (F64.div (F64.ofInt (d.tmod Hour)) (F64.ofInt (60 * 60 * 1000000000))) = y at hy ⊢
  generalize d.tdiv Hour = hour at b1 s1 s2 hx
  generalize d.tmod Hour = nsec at b1 b2 b3 s1 s2 hy
  refine SameSign.of_cases ?_ ?_ ?_
  · intro hd
    obtain ⟨t1, t2⟩ := s1 (le_of_lt hd)
    have hn : 0 < hour ∨ 0 < nsec := by
      by_contra hc2
      have e1 : hour = 0 := by omega
      have e2 : nsec = 0 := by omega
      rw [e1, e2] at b1
      omega
    refine (F64.add_sign_nonneg x y (hx.nonneg t1) (hy.nonneg t2)).1 ?_
    rcases hn with c | c
    · exact Or.inl (hx.1.2 c)
    · exact Or.inr (hy.1.2 c)
  · intro hd
    obtain ⟨t1, t2⟩ := s2 (le_of_lt hd)
    have hn : hour < 0 ∨ nsec < 0 := by
      by_contra hc2
      have e1 : hour = 0 := by omega
      have e2 : nsec = 0 := by omega
      rw [e1, e2] at b1
      omega
    refine F64.add_sign_nonpos x y (hx.nonpos t1) (hy.nonpos t2) ?_
    rcases hn with c | c
    · exact Or.inl (hx.2.1.2 c)
    · exact Or.inr (hy.2.1.2 c)
  · intro hd
    obtain ⟨t1, t2⟩ := s1 (le_of_eq hd.symm)
    obtain ⟨t3, t4⟩ := s2 (le_of_eq hd)
    have e1 : hour = 0 := by omega
    have e2 : nsec = 0 := by omega
    exact (F64.add_sign_nonneg x y (hx.nonneg t1) (hy.nonneg t2)).2 (hx.2.2.2 e1) (hy.2.2.2 e2)

end time


namespace time

/-! ## Durations between instants without nanoseconds -/

theorem addSec_sec (t : Time) (d : Int) :
    (t.addSec d).sec =
      if (wrap64 (t.sec + d) > t.sec ↔ d > 0) then wrap64 (t.sec + d)
      else if d > 0 then 2 ^ 63 - 1 else -(2 ^ 63 - 1) := by
  simp only [Time.addSec, beq_iff_eq, decide_eq_decide]
  split_ifs <;> rfl

theorem addSec_nsec (t : Time) (d : Int) : (t.addSec d).nsec = t.nsec := by
  simp only [Time.addSec]
  split_ifs <;> rfl

/-- When the difference of two instants without nanoseconds does not fit a
`Duration`, the overflow check of `Time.Sub` fails whatever the wrapped
duration is. -/
theorem Add_Equal_overflow (t u : Time) (d : Int) (ht : t.nsec = 0) (hu : u.nsec = 0)
    (hts : isInt64 t.sec) (hus : isInt64 u.sec) (hd : isInt64 d)
    (hfit : ¬ (-(2 ^ 63) ≤ (t.sec - u.sec) * 1000000000 ∧ (t.sec - u.sec) * 1000000000 < 2 ^ 63))
    (h : (u.Add d).Equal t = true) : False := by
  obtain ⟨e, l1, l2⟩ := tmod_bounds d 1000000000 (by decide)
  unfold isInt64 at hts hus hd
  revert h
  simp only [Time.Add, Time.Equal, hu, ht, zero_add, Bool.and_eq_true, beq_iff_eq]
  generalize d.tdiv 1000000000 = q at e
  generalize d.tmod 1000000000 = r at e l1 l2
  split_ifs with c1 c2
  · simp only [addSec_sec, addSec_nsec]
    intro h
    omega
  · simp only [addSec_sec, addSec_nsec]
    intro h
    omega
  · simp only [addSec_sec, addSec_nsec]
    unfold wrap64
    intro ⟨h1, h2⟩
    split_ifs at h1 <;> omega

/-- When the difference of two instants without nanoseconds fits a
`Duration`, the overflow check of `Time.Sub` passes for it. -/
theorem Add_Equal_exact (t u : Time) (ht : t.nsec = 0) (hu : u.nsec = 0)
    (hts : isInt64 t.sec) :
    (u.Add ((t.sec - u.sec) * 1000000000)).Equal t = true := by
  unfold isInt64 at hts
  have e1 : ((t.sec - u.sec) * 1000000000).tdiv 1000000000 = t.sec - u.sec :=
    Int.mul_tdiv_cancel _ (by decide)
  have e2 : ((t.sec - u.sec) * 1000000000).tmod 1000000000 = 0 := Int.mul_tmod_left _ _
  simp only [Time.Add, Time.Equal, e1, e2, hu, ht, add_zero, Bool.and_eq_true, beq_iff_eq]
  rw [if_neg (by decide), if_neg (by decide)]
  simp only [addSec_sec, addSec_nsec]
  have w : wrap64 (u.sec + (t.sec - u.sec)) = t.sec := by
    unfold wrap64
    omega
  rw [w, if_pos (by omega)]
  exact ⟨rfl, trivial⟩

/-- What `Time.Sub` returns for two instants without nanoseconds: the exact
number of nanoseconds between them while it fits a 64-bit `Duration`, and the
smallest or the largest `Duration` beyond. -/
theorem Sub_cases (t u : Time) (ht : t.nsec = 0) (hu : u.nsec = 0)
    (hts : isInt64 t.sec) (hus : isInt64 u.sec) :
    t.Sub u =
      if -(2 ^ 63) ≤ (t.sec - u.sec) * 1000000000 ∧ (t.sec - u.sec) * 1000000000 < 2 ^ 63 then
        (t.sec - u.sec) * 1000000000
      else if t.sec < u.sec then minDuration
      else maxDuration := by
  have hbefore : t.Before u = true ↔ t.sec < u.sec := by
    simp only [Time.Before, ht, hu, lt_self_iff_false, decide_False, Bool.and_false,
      Bool.or_false, decide_eq_true_eq]
  simp only [Time.Sub]
  generalize hd : wrap64 (wrap64 (wrap64 (t.sec - u.sec) * time.Second) +
    wrap64 (t.nsec - u.nsec)) = d
  change Int at d
  have hr := wrap64_range (wrap64 (wrap64 (t.sec - u.sec) * time.Second) +
    wrap64 (t.nsec - u.nsec))
  rw [hd] at hr
  by_cases hin : -(2 ^ 63) ≤ (t.sec - u.sec) * 1000000000 ∧
      (t.sec - u.sec) * 1000000000 < 2 ^ 63
  · -- the difference fits a Duration
    have w1 : wrap64 (t.sec - u.sec) = t.sec - u.sec := wrap64_id _ (by omega) (by omega)
    have w2 : wrap64 ((t.sec - u.sec) * time.Second) = (t.sec - u.sec) * 1000000000 := by
      have : (t.sec - u.sec) * time.Second = (t.sec - u.sec) * 1000000000 := by
        simp only [time.Second, Nanosecond]; ring
      rw [this]; exact wrap64_id _ hin.1 hin.2
    have w3 : wrap64 (t.nsec - u.nsec) = 0 := by rw [ht, hu]; rfl
    rw [w1, w2, w3, add_zero, wrap64_id _ hin.1 hin.2] at hd
    subst hd
    rw [if_pos (Add_Equal_exact t u ht hu hts), if_pos hin]
  · -- the difference does not fit: the check fails and the result saturates
    have hne : ¬ (u.Add d).Equal t = true :=
      fun h => Add_Equal_overflow t u d ht hu hts hus hr hin h
    rw [if_neg hne, if_neg hin]
    by_cases hlt : t.sec < u.sec
    · rw [if_pos (hbefore.2 hlt), if_pos hlt]
    · rw [if_neg (by rw [hbefore]; exact hlt), if_neg hlt]

/-- The duration between two instants without nanoseconds has the sign of
the difference of their seconds, however far apart they are. -/
theorem Sub_sign (t u : Time) (ht : t.nsec = 0) (hu : u.nsec = 0)
    (hts : isInt64 t.sec) (hus : isInt64 u.sec) : SameSign (t.Sub u) (t.sec - u.sec) := by
  rw [Sub_cases t u ht hu hts hus]
  unfold isInt64 at hts hus
  have hmin : minDuration = -(2 ^ 63) := rfl
  have hmax : maxDuration = 2 ^ 63 - 1 := rfl
  rw [hmin, hmax]
  refine SameSign.of_cases ?_ ?_ ?_
  · intro h
    split_ifs <;> omega
  · intro h
    split_ifs <;> omega
  · intro h
    split_ifs <;> omega

end time

namespace date

open time

/-- The number of days that `Sub` returns has the sign of the difference of
the stored seconds. -/
theorem Sub_sign_sec (a b : Date) (ha : a.t.nsec = 0) (hb : b.t.nsec = 0)
    (has : isInt64 a.t.sec) (hbs : isInt64 b.t.sec) :
    (0 < (a.Sub b).toRat ↔ b.t.sec < a.t.sec) ∧ ((a.Sub b).toRat < 0 ↔ a.t.sec < b.t.sec) ∧
      ((a.Sub b).toRat = 0 ↔ a.t.sec = b.t.sec) := by
  have h24 : 0 < (F64.ofInt 24).m := (F64.ofInt_sign 24).1.2 (by decide)
  have h := ((F64.div_sign (Duration.Hours (a.t.Sub b.t)) (F64.ofInt 24) h24).trans
    (Duration.Hours_sign (a.t.Sub b.t))).trans (time.Sub_sign a.t b.t ha hb has hbs)
  obtain ⟨r1, r2, r3⟩ := F64.toRat_sign (a.Sub b)
  obtain ⟨h1, h2, h3⟩ := h
  rw [r1, r2, r3]
  refine ⟨h1.trans ?_, h2.trans ?_, h3.trans ?_⟩
  · constructor <;> intro <;> omega
  · constructor <;> intro <;> omega
  · constructor <;> intro <;> omega

/-- The second that `NewDate` stores is an `int64`, and it stores no
nanoseconds. -/
theorem NewDate_stored (y m d : Int) :
    (NewDate y m d).t.nsec = 0 ∧ isInt64 (NewDate y m d).t.sec := by
  simp only [NewDate]
  unfold time.Date
  simp only [wrap64_zero]
  rw [norm_zero _ _ (by decide), norm_zero _ _ (by decide), norm_zero _ _ (by decide),
    norm_zero _ _ (by decide)]
  generalize norm (wrap64 y) (wrap64 (wrap64 m - 1)) 12 = p
  obtain ⟨yy, mm⟩ := p
  simp only []
  exact ⟨trivial, wrap64_isInt64 _⟩

end date


namespace date

open time

set_option maxRecDepth 100000 in
theorem Sub_1700_2020 :
    calendarDays (NewDate 2020 January 1) (NewDate 1700 January 1) = 116877 ∧
    (NewDate 2020 January 1).t.Sub (NewDate 1700 January 1).t = maxDuration ∧
    (NewDate 2020 January 1).Sub (NewDate 1700 January 1) = ⟨7335940973542995, -36⟩ := by
  decide

set_option maxRecDepth 100000 in
theorem Sub_examples :
    (NewDate 2020 January 3).Sub (NewDate 2020 January 1) = ⟨4503599627370496, -51⟩ ∧
    (NewDate 2020 January 1).Sub (NewDate 2020 January 3) = ⟨-4503599627370496, -51⟩ ∧
    (NewDate 2020 January 1).Sub (NewDate 2020 January 1) = ⟨0, 0⟩ ∧
    (NewDate 2021 January 1).Sub (NewDate 2020 January 1) = ⟨6438740092256256, -44⟩ := by
  decide

/-- C7 at the failing input: from 1700-01-01 to 2020-01-01 there are 116877
calendar days, but `time.Time.Sub` returns the largest `Duration`,
9223372036854775807 nanoseconds, and `Sub` returns that duration in days, the
`float64` 7335940973542995 / 2^36 (106751.99116730066...).  Where the
difference fits a `Duration` the results are exact: 2, -2, 0 and 366 for the
dates of the examples. -/
theorem Sub_saturates :
    calendarDays (NewDate 2020 January 1) (NewDate 1700 January 1) = 116877 ∧
    (NewDate 2020 January 1).t.Sub (NewDate 1700 January 1).t = maxDuration ∧
    ((NewDate 2020 January 1).Sub (NewDate 1700 January 1)).toRat
      = 7335940973542995 / 68719476736 ∧
    ((NewDate 2020 January 1).Sub (NewDate 1700 January 1)).toRat ≠ 116877 ∧
    ((NewDate 2020 January 3).Sub (NewDate 2020 January 1)).toRat = 2 ∧
    ((NewDate 2020 January 1).Sub (NewDate 2020 January 3)).toRat = -2 ∧
    ((NewDate 2020 January 1).Sub (NewDate 2020 January 1)).toRat = 0 ∧
    ((NewDate 2021 January 1).Sub (NewDate 2020 January 1)).toRat = 366 := by
  obtain ⟨c, s, f⟩ := Sub_1700_2020
  obtain ⟨e1, e2, e3, e4⟩ := Sub_examples
  rw [f, e1, e2, e3, e4]
  refine ⟨c, s, ?_, ?_, ?_, ?_, ?_, ?_⟩ <;> simp only [F64.toRat] <;> norm_num

end date


namespace date

open time

/-! ## Scan, UnmarshalText and Value -/

theorem Scan_time_eq (d : Date) (v : Time) :
    d.Scan (ScanValue.time v) = (NewDate v.Date.1 v.Date.2.1 v.Date.2.2, none) := rfl

set_option maxRecDepth 100000 in
theorem Scan_noon (d : Date) :
    (d.Scan (ScanValue.time (time.Date 2020 January 1 12 0 0 0))).1.String = "2020-01-01" := by
  have e : d.Scan (ScanValue.time (time.Date 2020 January 1 12 0 0 0)) =
      (NewDate 2020 January 1, none) := by
    rw [Scan_time_eq]
    have : (time.Date 2020 January 1 12 0 0 0).Date = (2020, 1, 1) := by decide
    rw [this]
    rfl
  rw [e]
  decide

/-- C11: for every timestamp `v` (any time of day, any zone) and every prior
value of the receiver, `Scan(v)` returns no error and leaves a date whose
`Year`, `Month` and `Day` are the civil year, month and day of `v` as read in
the location of `v`, with the time of day discarded; 2020-01-01 12:00 UTC
scans to 2020-01-01. -/
theorem Scan_timestamp_truncates (d : Date) (v : Time) :
    (d.Scan (ScanValue.time v)).2 = none ∧
    (d.Scan (ScanValue.time v)).1.Year = v.Year ∧
    (d.Scan (ScanValue.time v)).1.Month = v.Month ∧
    (d.Scan (ScanValue.time v)).1.Day = v.Day ∧
    (d.Scan (ScanValue.time v)).1.t.Hour = 0 ∧
    (d.Scan (ScanValue.time v)).1.t.Minute = 0 ∧
    (d.Scan (ScanValue.time v)).1.t.Second = 0 ∧
    (d.Scan (ScanValue.time v)).1.t.Nanosecond = 0 ∧
    (d.Scan (ScanValue.time (time.Date 2020 January 1 12 0 0 0))).1.String = "2020-01-01" ∧
    (d.Scan (ScanValue.time (time.Date 2020 January 1 12 0 0 0))).2 = none := by
  obtain ⟨c1, c2, c3⟩ := NewDate_civil _ _ _ (Time.Date_valid v) (Time.Date_representable v)
  obtain ⟨n, hm⟩ := Scan_midnight d (ScanValue.time v)
  obtain ⟨t1, t2, t3, t4, -⟩ := hm.time_of_day
  refine ⟨rfl, ?_, c2, c3, t1, t2, t3, t4, Scan_noon d, rfl⟩
  rw [Scan_time_eq, c1, Time.Year_eq]

theorem length_pos_iff (s : GoString) : s.length > 0 ↔ s ≠ "" := by
  rw [gt_iff_lt, String.length, List.length_pos]
  constructor
  · intro h e
    exact h (by rw [e])
  · intro h e
    exact h (String.ext e)

theorem Scan_string_eq (d : Date) (s : GoString) (h : s ≠ "") :
    d.Scan (ScanValue.string s) = Parse s := by
  simp [Date.Scan, h, Parse]

theorem Scan_bytes_eq (d : Date) (s : GoString) (h : s ≠ "") :
    d.Scan (ScanValue.bytes s) = Parse s := by
  have h2 : s.length > 0 := (length_pos_iff s).2 h
  simp [Date.Scan, h2, Parse]

theorem Scan_string_empty (d : Date) : d.Scan (ScanValue.string "") = (Date.zero, none) := rfl

theorem Scan_bytes_empty (d : Date) : d.Scan (ScanValue.bytes "") = (Date.zero, none) := rfl

theorem Parse_error_zero (s : GoString) (h : (Parse s).2 ≠ none) : (Parse s).1 = Date.zero := by
  rcases ParseDate_cases s with ⟨e, he⟩ | ⟨y, m, d, -, he⟩
  · simp [Parse, he, Date.zero]
  · exact absurd (by simp [Parse, he]) h

theorem Scan_error_iff (d : Date) (v : ScanValue) : (d.Scan v).2 ≠ none ↔ scanRejects v := by
  cases v with
  | null => simp [Date.Scan, scanRejects]
  | bytes s =>
    by_cases h : s = ""
    · subst h; simp [Scan_bytes_empty, scanRejects]
    · simp [Scan_bytes_eq d s h, scanRejects, h]
  | string s =>
    by_cases h : s = ""
    · subst h; simp [Scan_string_empty, scanRejects]
    · simp [Scan_string_eq d s h, scanRejects, h]
  | time v => simp [Scan_time_eq, scanRejects]
  | other p => simp [Date.Scan, scanRejects]

theorem Scan_error_zero (d : Date) (v : ScanValue) (h : (d.Scan v).2 ≠ none) :
    (d.Scan v).1 = Date.zero := by
  cases v with
  | null => exact absurd rfl h
  | bytes s =>
    by_cases hs : s = ""
    · subst hs; rfl
    · rw [Scan_bytes_eq d s hs] at h ⊢
      exact Parse_error_zero s h
  | string s =>
    by_cases hs : s = ""
    · subst hs; rfl
    · rw [Scan_string_eq d s hs] at h ⊢
      exact Parse_error_zero s h
  | time v => exact absurd rfl h
  | other p => rfl

/-- C12: `Scan` returns an error exactly when its input is a non-empty string
or byte sequence that `Parse` rejects, or a value that is none of null,
string, byte sequence and timestamp (such as a list of integers); and
whenever `Scan` or `UnmarshalText` returns an error the receiver is the zero
date 0001-01-01, whatever it held before the call. -/
theorem Scan_errors_reset :
    (∀ (d : Date) (v : ScanValue), (d.Scan v).2 ≠ none ↔ scanRejects v) ∧
    (∀ (d : Date) (v : ScanValue), (d.Scan v).2 ≠ none →
      (d.Scan v).1 = Date.zero ∧ (d.Scan v).1.IsZero = true ∧
        (d.Scan v).1.String = "0001-01-01") ∧
    (∀ (d : Date) (data : GoString), (d.UnmarshalText data).2 ≠ none →
      (d.UnmarshalText data).1 = Date.zero ∧ (d.UnmarshalText data).1.IsZero = true ∧
        (d.UnmarshalText data).1.String = "0001-01-01") ∧
    ((NewDate 2020 January 2).Scan (ScanValue.other "[]int [2020 1 2]")).2 ≠ none ∧
    ((NewDate 2020 January 2).Scan (ScanValue.other "[]int [2020 1 2]")).1 = Date.zero ∧
    ((NewDate 2020 January 2).Scan (ScanValue.string "2020-01-32")).2 ≠ none ∧
    ((NewDate 2020 January 2).Scan (ScanValue.string "2020-01-32")).1 = Date.zero := by
  refine ⟨Scan_error_iff, ?_, ?_, by decide, by decide, by decide, by decide⟩
  · intro d v h
    rw [Scan_error_zero d v h]
    exact ⟨rfl, rfl, zero_String⟩
  · intro d data h
    have h2 : (d.Scan (ScanValue.bytes data)).2 ≠ none := h
    have e : (d.UnmarshalText data).1 = Date.zero := Scan_error_zero d _ h2
    rw [e]
    exact ⟨rfl, rfl, zero_String⟩

/-- C13: for every non-empty text `s`, `Scan` of `s` as a string, `Scan` of
`s` as bytes and `UnmarshalText` of `s` each return what `Parse s` returns:
the same error (so an error exactly when `Parse` has one) and, in the
receiver, the date of `Parse s`; and for every byte sequence, empty or not,
`UnmarshalText` has the result and the effect of `Scan`. -/
theorem text_entry_points_agree (d : Date) (s : GoString) (h : s ≠ "") :
    d.Scan (ScanValue.string s) = Parse s ∧
    d.Scan (ScanValue.bytes s) = Parse s ∧
    d.UnmarshalText s = Parse s ∧
    ((d.Scan (ScanValue.string s)).2 ≠ none ↔ (Parse s).2 ≠ none) ∧
    ((d.Scan (ScanValue.bytes s)).2 ≠ none ↔ (Parse s).2 ≠ none) ∧
    ((d.UnmarshalText s).2 ≠ none ↔ (Parse s).2 ≠ none) ∧
    (∀ data : GoString, d.UnmarshalText data = d.Scan (ScanValue.bytes data)) := by
  have e1 := Scan_string_eq d s h
  have e2 := Scan_bytes_eq d s h
  have e3 : d.UnmarshalText s = Parse s := e2
  refine ⟨e1, e2, e3, ?_, ?_, ?_, fun _ => rfl⟩
  · rw [e1]
  · rw [e2]
  · rw [e3]

theorem text_entry_points_agree_witness :
    ("2020-13-01" : GoString) ≠ "" ∧
    Date.zero.Scan (ScanValue.string "2020-13-01") = Parse "2020-13-01" ∧
    Date.zero.Scan (ScanValue.bytes "2020-13-01") = Parse "2020-13-01" ∧
    Date.zero.UnmarshalText "2020-13-01" = Parse "2020-13-01" ∧
    ((Date.zero.Scan (ScanValue.string "2020-13-01")).2 ≠ none ↔
      (Parse "2020-13-01").2 ≠ none) ∧
    ((Date.zero.Scan (ScanValue.bytes "2020-13-01")).2 ≠ none ↔
      (Parse "2020-13-01").2 ≠ none) ∧
    ((Date.zero.UnmarshalText "2020-13-01").2 ≠ none ↔ (Parse "2020-13-01").2 ≠ none) ∧
    (∀ data : GoString, Date.zero.UnmarshalText data = Date.zero.Scan (ScanValue.bytes data)) :=
  ⟨by decide, text_entry_points_agree Date.zero "2020-13-01" (by decide)⟩

end date


namespace date

open time

/-! ## The zero date, the accessors, Value, and the sign of Sub -/

theorem IsZero_midnight {d : Date} {n : Int} (h : Midnight d.t n) :
    d.IsZero = true ↔ n = 106751990353932 := by
  have hs := h.sec_eq_iff zero_midnight
  obtain ⟨h1, -, -⟩ := h
  simp only [Date.IsZero, Time.IsZero, h1, Bool.and_eq_true, beq_iff_eq, and_true]
  exact hs

theorem civil_one_midnight {d : Date} {n : Int} (h : Midnight d.t n) :
    (d.Year = 1 ∧ d.Month = January ∧ d.Day = 1) ↔ n = 106751990353932 := by
  obtain ⟨v, e⟩ := h.date_spec
  have c1 : d.Year = d.t.Date.1 := Time.Year_eq d.t
  have c2 : d.Month = d.t.Date.2.1 := rfl
  have c3 : d.Day = d.t.Date.2.2 := rfl
  rw [c1, c2, c3]
  have k : dayNumber 1 1 1 = 106751990353932 := by decide
  constructor
  · rintro ⟨e1, e2, e3⟩
    rw [e1, e2, e3] at e
    simp only [January] at e
    omega
  · intro hn
    have v1 : validDate 1 1 1 := by
      refine ⟨by decide, by decide, by decide, by decide⟩
    have := dayNumber_inj _ _ _ _ _ _ v v1 (by rw [e, k, hn])
    exact this

/-- For the dates that the library can count, `IsZero` detects exactly the
date 0001-01-01. -/
theorem IsZero_iff_of_reachable (d : Date) (h : Reachable d) :
    d.IsZero = true ↔ d.Year = 1 ∧ d.Month = January ∧ d.Day = 1 := by
  obtain ⟨n, hm⟩ := h.midnight
  rw [IsZero_midnight hm, civil_one_midnight hm]

set_option maxRecDepth 100000 in
theorem wrapped_zero :
    (NewDate 584554049254 November 10).Year = 1 ∧
    (NewDate 584554049254 November 10).Month = January ∧
    (NewDate 584554049254 November 10).Day = 1 ∧
    (NewDate 584554049254 November 10).IsZero = false ∧
    (NewDate 584554049254 November 10).t.sec = 61184 ∧
    (NewDate 584554049254 November 10).String = "0001-01-01" := by
  decide

/-- C14 at the failing input: `NewDate(584554049254, November, 10)` has
`Year() == 1`, `Month() == January` and `Day() == 1`, and `IsZero()` is false.
The seconds of that day exceed the `uint64` of `time.Date` by 61184, so the
instant wraps around to 0001-01-01 16:59:44, and `IsZero` looks at the stored
second, which is 61184 and not 0. -/
theorem IsZero_beyond_range :
    (NewDate 584554049254 November 10).Year = 1 ∧
    (NewDate 584554049254 November 10).Month = January ∧
    (NewDate 584554049254 November 10).Day = 1 ∧
    (NewDate 584554049254 November 10).IsZero = false ∧
    (NewDate 584554049254 November 10).t.sec = 61184 :=
  ⟨wrapped_zero.1, wrapped_zero.2.1, wrapped_zero.2.2.1, wrapped_zero.2.2.2.1,
    wrapped_zero.2.2.2.2.1⟩

/-- C16, for the days the library can count: for every year `y` (positive,
zero or negative), every month `m` in 1..12 and every day `d` in
1..daysIn(m, y) such that `(y, m, d)` is representable (a day between
-292277022399-01-01 and 292277026854-11-09), `NewDate(y, m, d).Year() = y`,
`NewDate(y, m, d).Month() = m` and `NewDate(y, m, d).Day() = d`. -/
theorem accessors_project (y m d : Int) (hm1 : 1 ≤ m) (hm2 : m ≤ 12) (hd1 : 1 ≤ d)
    (hd2 : d ≤ daysIn m y) (hr : Representable y m d) :
    (NewDate y m d).Year = y ∧ (NewDate y m d).Month = m ∧ (NewDate y m d).Day = d :=
  NewDate_civil y m d ⟨hm1, hm2, hd1, hd2⟩ hr

theorem accessors_project_witness :
    (1 : Int) ≤ 2 ∧ (2 : Int) ≤ 12 ∧ (1 : Int) ≤ 29 ∧ (29 : Int) ≤ daysIn 2 (-4) ∧
    Representable (-4) 2 29 ∧
    (NewDate (-4) 2 29).Year = -4 ∧ (NewDate (-4) 2 29).Month = 2 ∧
    (NewDate (-4) 2 29).Day = 29 :=
  ⟨by decide, by decide, by decide, by decide, by decide,
    accessors_project (-4) 2 29 (by decide) (by decide) (by decide) (by decide) (by decide)⟩

set_option maxRecDepth 100000 in
theorem wrapped_accessors :
    (1 : Int) ≤ 1 ∧ (1 : Int) ≤ daysIn January 300000000000 ∧
    (NewDate 300000000000 January 1).Year = -284554049254 ∧
    (NewDate 300000000000 January 1).Month = February ∧
    (NewDate 300000000000 January 1).Day = 22 ∧
    (NewDate 300000000000 January 1).Year ≠ 300000000000 := by
  decide

/-- C16 as stated fails for a year beyond the days the library can count:
1 January of the year 300000000000 is a valid date, but `NewDate(300000000000,
January, 1)` has `Year() == -284554049254`, `Month() == February` and
`Day() == 22`. -/
theorem accessors_beyond_range :
    (1 : Int) ≤ 1 ∧ (1 : Int) ≤ daysIn January 300000000000 ∧
    (NewDate 300000000000 January 1).Year = -284554049254 ∧
    (NewDate 300000000000 January 1).Month = February ∧
    (NewDate 300000000000 January 1).Day = 22 ∧
    (NewDate 300000000000 January 1).Year ≠ 300000000000 :=
  wrapped_accessors

/-- C17, for the dates that the library can count: for every date `d`
obtained from the zero value, `NewDate` with representable arguments, `Parse`
or `Scan`, `d.Value()` returns a nil error and a timestamp whose civil date is
`(d.Year(), d.Month(), d.Day())`, whose time of day is 00:00:00.000000000 and
whose zone is UTC; `NewDate(2020, January, 32).Value()` is 2020-02-01 00:00:00
UTC and `Date{}.Value()` is 0001-01-01 00:00:00 UTC. -/
theorem Value_succeeds (d : Date) (h : Reachable d) :
    d.Value.2 = none ∧
    d.Value.1.Date = (d.Year, d.Month, d.Day) ∧
    d.Value.1.Hour = 0 ∧ d.Value.1.Minute = 0 ∧ d.Value.1.Second = 0 ∧
    d.Value.1.Nanosecond = 0 ∧ d.Value.1.Location = time.UTC ∧
    (NewDate 2020 January 32).Value = (time.Date 2020 February 1 0 0 0 0, none) ∧
    Date.zero.Value = (time.Date 1 January 1 0 0 0 0, none) := by
  obtain ⟨n, hm⟩ := h.midnight
  obtain ⟨t1, t2, t3, t4, t5⟩ := hm.time_of_day
  exact ⟨rfl, (civil_eq d).symm, t1, t2, t3, t4, t5, by decide, by decide⟩

theorem Value_succeeds_witness :
    Reachable (Parse "2020-02-29").1 ∧
    (Parse "2020-02-29").1.Value.2 = none ∧
    (Parse "2020-02-29").1.Value.1.Date =
      ((Parse "2020-02-29").1.Year, (Parse "2020-02-29").1.Month, (Parse "2020-02-29").1.Day) ∧
    (Parse "2020-02-29").1.Value.1.Hour = 0 ∧ (Parse "2020-02-29").1.Value.1.Minute = 0 ∧
    (Parse "2020-02-29").1.Value.1.Second = 0 ∧
    (Parse "2020-02-29").1.Value.1.Nanosecond = 0 ∧
    (Parse "2020-02-29").1.Value.1.Location = time.UTC ∧
    (NewDate 2020 January 32).Value = (time.Date 2020 February 1 0 0 0 0, none) ∧
    Date.zero.Value = (time.Date 1 January 1 0 0 0 0, none) :=
  ⟨Reachable.parse _, Value_succeeds _ (Reachable.parse "2020-02-29")⟩

set_option maxRecDepth 100000 in
theorem wrapped_value :
    (NewDate 300000000000 January 1).Value.2 = none ∧
    (NewDate 300000000000 January 1).Value.1.Hour = 16 ∧
    (NewDate 300000000000 January 1).Value.1.Minute = 59 ∧
    (NewDate 300000000000 January 1).Value.1.Second = 44 := by
  decide

/-- C17 as stated fails for `NewDate` with a year beyond the days the
library can count: the timestamp that `NewDate(300000000000, January,
1).Value()` returns has the time of day 16:59:44. -/
theorem Value_beyond_range :
    (NewDate 300000000000 January 1).Value.2 = none ∧
    (NewDate 300000000000 January 1).Value.1.Hour = 16 ∧
    (NewDate 300000000000 January 1).Value.1.Minute = 59 ∧
    (NewDate 300000000000 January 1).Value.1.Second = 44 :=
  wrapped_value

/-- C20, as the code has it: for all dates `a` and `b` built by `NewDate`
from any arguments, however far apart, `a.Sub(b) > 0` if and only if
`a.After(b)` and `a.Sub(b) < 0` if and only if `a.Before(b)`; and for dates
built from representable arguments (days between -292277022399-01-01 and
292277026854-11-09), `a.Sub(b) == 0` if and only if `a.Equal(b)`. -/
theorem Sub_sign_agrees (y1 m1 d1 y2 m2 d2 : Int) (h1 : Representable y1 m1 d1)
    (h2 : Representable y2 m2 d2) :
    (∀ a1 b1 c1 a2 b2 c2 : Int,
      (0 < ((NewDate a1 b1 c1).Sub (NewDate a2 b2 c2)).toRat ↔
        (NewDate a1 b1 c1).After (NewDate a2 b2 c2) = true) ∧
      (((NewDate a1 b1 c1).Sub (NewDate a2 b2 c2)).toRat < 0 ↔
        (NewDate a1 b1 c1).Before (NewDate a2 b2 c2) = true)) ∧
    (((NewDate y1 m1 d1).Sub (NewDate y2 m2 d2)).toRat = 0 ↔
      (NewDate y1 m1 d1).Equal (NewDate y2 m2 d2) = true) := by
  constructor
  · intro a1 b1 c1 a2 b2 c2
    obtain ⟨n1, s1⟩ := NewDate_stored a1 b1 c1
    obtain ⟨n2, s2⟩ := NewDate_stored a2 b2 c2
    obtain ⟨r1, r2, -⟩ := Sub_sign_sec _ _ n1 n2 s1 s2
    rw [r1, r2, After_iff_sec n1 n2, Before_iff_sec n1 n2]
    exact ⟨Iff.rfl, Iff.rfl⟩
  · obtain ⟨n1, s1⟩ := NewDate_stored y1 m1 d1
    obtain ⟨n2, s2⟩ := NewDate_stored y2 m2 d2
    obtain ⟨-, -, r3⟩ := Sub_sign_sec _ _ n1 n2 s1 s2
    rw [r3, Equal_iff_sec (a := NewDate y1 m1 d1) (b := NewDate y2 m2 d2)
      (Date_midnight y1 m1 d1 h1) (Date_midnight y2 m2 d2 h2)]

theorem Sub_sign_agrees_witness :
    Representable 2021 1 1 ∧ Representable 2020 2 30 ∧
    (∀ a1 b1 c1 a2 b2 c2 : Int,
      (0 < ((NewDate a1 b1 c1).Sub (NewDate a2 b2 c2)).toRat ↔
        (NewDate a1 b1 c1).After (NewDate a2 b2 c2) = true) ∧
      (((NewDate a1 b1 c1).Sub (NewDate a2 b2 c2)).toRat < 0 ↔
        (NewDate a1 b1 c1).Before (NewDate a2 b2 c2) = true)) ∧
    (((NewDate 2021 1 1).Sub (NewDate 2020 2 30)).toRat = 0 ↔
      (NewDate 2021 1 1).Equal (NewDate 2020 2 30) = true) :=
  ⟨by decide, by decide, Sub_sign_agrees 2021 1 1 2020 2 30 (by decide) (by decide)⟩

set_option maxRecDepth 100000 in
theorem wrapped_sub :
    (NewDate 300000000000 January 1).Equal (NewDate (-284554049254) February 22) = true ∧
    (NewDate 300000000000 January 1).t.Sub (NewDate (-284554049254) February 22).t
      = 61184000000000 ∧
    (NewDate 300000000000 January 1).Sub (NewDate (-284554049254) February 22)
      = ⟨6378431472246213, -53⟩ := by
  decide

/-- C20 as stated fails for `NewDate` with a year beyond the days the
library can count: `NewDate(300000000000, January, 1)` wraps around to
16:59:44 on -284554049254-02-22, so it is `Equal` to `NewDate(-284554049254,
February, 22)` while `Sub` returns the 61184 seconds between them in days, the
`float64` 6378431472246213 / 2^53 (0.708...), and not 0. -/
theorem Sub_nonzero_for_Equal :
    (NewDate 300000000000 January 1).Equal (NewDate (-284554049254) February 22) = true ∧
    ((NewDate 300000000000 January 1).Sub (NewDate (-284554049254) February 22)).toRat
      = 6378431472246213 / 9007199254740992 ∧
    ((NewDate 300000000000 January 1).Sub (NewDate (-284554049254) February 22)).toRat ≠ 0 := by
  obtain ⟨e, -, f⟩ := wrapped_sub
  rw [f]
  refine ⟨e, ?_, ?_⟩ <;> simp only [F64.toRat] <;> norm_num

end date


namespace time

/-! ## The text of a date -/

theorem digitChar_eq (k : Nat) (h : k < 10) : Nat.digitChar k = Char.ofNat (48 + k) := by
  interval_cases k <;> rfl

theorem appendIntLoop_eq_toDigitsCore (fuel : Nat) :
    ∀ (u : Nat) (buf : List Char), u ≤ fuel →
      appendIntLoop fuel u buf = Nat.toDigitsCore 10 (fuel + 1) u buf := by
  induction fuel with
  | zero =>
    intro u buf h
    have hu : u = 0 := by omega
    subst hu
    rfl
  | succ n ih =>
    intro u buf h
    by_cases hu : 10 ≤ u
    · rw [appendIntLoop_ge _ _ _ hu (by omega), Nat.add_sub_cancel, ih _ _ (by omega)]
      have hq : u / 10 ≠ 0 := by omega
      conv_rhs => rw [Nat.toDigitsCore]
      simp only [hq, if_false]
      rw [digitChar_eq _ (by omega)]
    · rw [appendIntLoop_lt _ _ _ (by omega)]
      have hq : u / 10 = 0 := by omega
      have hr : u % 10 = u := by omega
      conv_rhs => rw [Nat.toDigitsCore]
      simp only [hq, if_true, hr]
      rw [digitChar_eq _ (by omega)]

theorem appendIntLoop_eq_toDigits (u : Nat) : appendIntLoop u u [] = Nat.toDigits 10 u :=
  appendIntLoop_eq_toDigitsCore u u [] (le_refl u)

/-- `appendInt` writes a `-` for a negative number and then the decimal
digits of its absolute value, padded with zeros to the width. -/
theorem appendInt_eq (b : List Char) (x : Int) (width : Nat) :
    appendInt b x width =
      b ++ ((if x < 0 then ['-'] else []) ++ date.zeroPad width x.natAbs) := by
  by_cases hx : x < 0
  · have e : (-x).toNat = x.natAbs := by omega
    simp [appendInt, hx, e, appendIntLoop_eq_toDigits, date.zeroPad]
  · have e : x.toNat = x.natAbs := by omega
    simp [appendInt, hx, e, appendIntLoop_eq_toDigits, date.zeroPad]

theorem zeroPad_length_ge (width n : Nat) : width ≤ (date.zeroPad width n).length := by
  simp only [date.zeroPad, List.length_append, List.length_replicate]
  omega

theorem toDigits_length_two (n : Nat) (h : n < 100) : (Nat.toDigits 10 n).length ≤ 2 := by
  rw [← appendIntLoop_eq_toDigits]
  by_cases hn : 10 ≤ n
  · rw [appendIntLoop_ge _ _ _ hn (by omega), appendIntLoop_lt _ _ _ (by omega)]
    simp
  · rw [appendIntLoop_lt _ _ _ (by omega)]
    simp

theorem toDigits_length_four (n : Nat) (h : n < 10000) : (Nat.toDigits 10 n).length ≤ 4 := by
  rw [← appendIntLoop_eq_toDigits]
  by_cases h1 : 10 ≤ n
  · rw [appendIntLoop_ge _ _ _ h1 (by omega)]
    by_cases h2 : 10 ≤ n / 10
    · rw [appendIntLoop_ge _ _ _ h2 (by omega)]
      by_cases h3 : 10 ≤ n / 10 / 10
      · rw [appendIntLoop_ge _ _ _ h3 (by omega), appendIntLoop_lt _ _ _ (by omega)]
        simp
      · rw [appendIntLoop_lt _ _ _ (by omega)]
        simp
    · rw [appendIntLoop_lt _ _ _ (by omega)]
      simp
  · rw [appendIntLoop_lt _ _ _ (by omega)]
    simp

theorem zeroPad_length_two (n : Nat) (h : n < 100) : (date.zeroPad 2 n).length = 2 := by
  have := toDigits_length_two n h
  simp only [date.zeroPad, List.length_append, List.length_replicate]
  omega

theorem zeroPad_length_four (n : Nat) (h : n < 10000) : (date.zeroPad 4 n).length = 4 := by
  have := toDigits_length_four n h
  simp only [date.zeroPad, List.length_append, List.length_replicate]
  omega

theorem FormatDate_eq (t : Time) :
    t.FormatDate = date.renderISO t.Date.1 t.Date.2.1 t.Date.2.2 := by
  have hv := (absDate_spec t.abs).1
  unfold Time.FormatDate Time.Date
  generalize absDate t.abs true = r at hv ⊢
  obtain ⟨y, m, d, yd⟩ := r
  have hm : ¬ m < 0 := Int.not_lt.2 (Int.le_trans (by decide) hv.1)
  have hd : ¬ d < 0 := Int.not_lt.2 (Int.le_trans (by decide) hv.2.2.1)
  simp only [date.renderISO, appendInt_eq, List.nil_append, List.append_assoc, hm, hd, if_false]

end time


namespace date

open time

theorem String_eq (d : Date) : d.String = renderISO d.Year d.Month d.Day := by
  rw [Date.String, FormatDate_eq, Date.Year, Time.Year_eq]
  rfl

theorem civil_valid (d : Date) : validDate d.Year d.Month d.Day := by
  have h := Time.Date_valid d.t
  rw [Date.Year, Time.Year_eq]
  exact h

set_option maxRecDepth 100000 in
theorem String_examples :
    (NewDate (-1) January 1).String = "-0001-01-01" ∧
    (NewDate 12345 January 1).String = "12345-01-01" := by
  decide

/-- C15: `String` renders every date `d` as a leading `-` when `d.Year` is
negative, then the absolute year zero-padded to at least 4 digits (more when
the year needs them), `-`, the month as exactly 2 zero-padded digits, `-`, and
the day as exactly 2 zero-padded digits; `MarshalText` returns exactly that
text with no error.  For `0 <= d.Year <= 9999` the text has exactly 10
characters; the zero value renders "0001-01-01" and `NewDate(-1, January, 1)`
renders "-0001-01-01". -/
theorem String_layout (d : Date) :
    d.String = renderISO d.Year d.Month d.Day ∧
    d.MarshalText = (d.String, none) ∧
    4 ≤ (zeroPad 4 d.Year.natAbs).length ∧
    (zeroPad 2 d.Month.natAbs).length = 2 ∧
    (zeroPad 2 d.Day.natAbs).length = 2 ∧
    (0 ≤ d.Year → d.Year ≤ 9999 → d.String.length = 10) ∧
    Date.zero.String = "0001-01-01" ∧
    (NewDate (-1) January 1).String = "-0001-01-01" ∧
    (NewDate 12345 January 1).String = "12345-01-01" := by
  obtain ⟨v1, v2, v3, v4⟩ := civil_valid d
  have v5 := daysIn_le d.Year d.Month v1 v2
  have lm : (zeroPad 2 d.Month.natAbs).length = 2 := zeroPad_length_two _ (by omega)
  have ld : (zeroPad 2 d.Day.natAbs).length = 2 := zeroPad_length_two _ (by omega)
  refine ⟨String_eq d, rfl, zeroPad_length_ge 4 _, lm, ld, ?_, zero_String, String_examples.1,
    String_examples.2⟩
  intro h0 h1
  have ly : (zeroPad 4 d.Year.natAbs).length = 4 := zeroPad_length_four _ (by omega)
  have hn : ¬ d.Year < 0 := by omega
  rw [String_eq, renderISO]
  simp only [hn, if_false, String.length, List.length_append, List.length_nil, ly, lm, ld,
    List.length_cons]

end date


namespace time

/-! ## Marshalling a date and reading it back -/

theorem ofNat_isAsciiDigit (a : Nat) (h : a < 10) :
    date.isAsciiDigit (Char.ofNat (48 + a)) = true ∧ digitVal (Char.ofNat (48 + a)) = a := by
  interval_cases a <;> exact ⟨rfl, rfl⟩

theorem appendIntLoop_length (fuel : Nat) :
    ∀ (u : Nat) (buf : List Char), buf.length + 1 ≤ (appendIntLoop fuel u buf).length := by
  induction fuel with
  | zero => intro u buf; simp [appendIntLoop]
  | succ n ih =>
    intro u buf
    by_cases hu : 10 ≤ u
    · rw [appendIntLoop_ge _ _ _ hu (by omega), Nat.add_sub_cancel]
      have := ih (u / 10) (Char.ofNat (48 + u % 10) :: buf)
      simp only [List.length_cons] at this
      omega
    · rw [appendIntLoop_lt _ _ _ (by omega)]
      simp

theorem appendIntLoop_digits (fuel : Nat) :
    ∀ (u : Nat) (buf : List Char), u ≤ fuel → (∀ c ∈ buf, date.isAsciiDigit c = true) →
      ∀ c ∈ appendIntLoop fuel u buf, date.isAsciiDigit c = true := by
  induction fuel with
  | zero =>
    intro u buf h hb c hc
    have hu : u = 0 := by omega
    subst hu
    simp only [appendIntLoop, List.mem_cons] at hc
    rcases hc with rfl | hc
    · rfl
    · exact hb c hc
  | succ n ih =>
    intro u buf h hb c hc
    by_cases hu : 10 ≤ u
    · rw [appendIntLoop_ge _ _ _ hu (by omega), Nat.add_sub_cancel] at hc
      refine ih (u / 10) _ (by omega) ?_ c hc
      intro c' hc'
      rcases List.mem_cons.1 hc' with rfl | h'
      · exact (ofNat_isAsciiDigit _ (by omega)).1
      · exact hb c' h'
    · rw [appendIntLoop_lt _ _ _ (by omega)] at hc
      rcases List.mem_cons.1 hc with rfl | h'
      · exact (ofNat_isAsciiDigit _ (by omega)).1
      · exact hb c h'

/-- A number of at least 10000 is written with five or more digits. -/
theorem toDigits_long (n : Nat) (h : 10000 ≤ n) :
    5 ≤ (Nat.toDigits 10 n).length ∧ ∀ c ∈ Nat.toDigits 10 n, date.isAsciiDigit c = true := by
  rw [← appendIntLoop_eq_toDigits]
  refine ⟨?_, appendIntLoop_digits n n [] (le_refl n) (by simp)⟩
  rw [appendIntLoop_ge _ _ _ (by omega) (by omega), appendIntLoop_ge _ _ _ (by omega) (by omega),
    appendIntLoop_ge _ _ _ (by omega) (by omega), appendIntLoop_ge _ _ _ (by omega) (by omega)]
  have := appendIntLoop_length (n - 1 - 1 - 1 - 1) (n / 10 / 10 / 10 / 10)
    [Char.ofNat (48 + n / 10 / 10 / 10 % 10), Char.ofNat (48 + n / 10 / 10 % 10),
      Char.ofNat (48 + n / 10 % 10), Char.ofNat (48 + n % 10)]
  simpa using this

end time


namespace time

/-- The text that `Format` writes for an instant whose year has four digits
is parsed to the instant at midnight UTC of the same date. -/
theorem ParseDate_FormatDate_digits (t : Time) (a0 a1 a2 a3 b0 b1 c0 c1 : Nat)
    (h0 : a0 < 10) (h1 : a1 < 10) (h2 : a2 < 10) (h3 : a3 < 10)
    (g0 : b0 < 10) (g1 : b1 < 10) (k0 : c0 < 10) (k1 : c1 < 10)
    (ht : t.Date = (((1000 * a0 + 100 * a1 + 10 * a2 + a3 : Nat) : Int),
      ((10 * b0 + b1 : Nat) : Int), ((10 * c0 + c1 : Nat) : Int)))
    (hv : validDate ((1000 * a0 + 100 * a1 + 10 * a2 + a3 : Nat) : Int)
      ((10 * b0 + b1 : Nat) : Int) ((10 * c0 + c1 : Nat) : Int)) :
    ParseDate t.FormatDate =
      (Date ((1000 * a0 + 100 * a1 + 10 * a2 + a3 : Nat) : Int)
        ((10 * b0 + b1 : Nat) : Int) ((10 * c0 + c1 : Nat) : Int) 0 0 0 0, none) := by
  obtain ⟨d0, e0⟩ := ofNat_isAsciiDigit a0 h0
  obtain ⟨d1, e1⟩ := ofNat_isAsciiDigit a1 h1
  obtain ⟨d2, e2⟩ := ofNat_isAsciiDigit a2 h2
  obtain ⟨d3, e3⟩ := ofNat_isAsciiDigit a3 h3
  obtain ⟨d4, e4⟩ := ofNat_isAsciiDigit b0 g0
  obtain ⟨d5, e5⟩ := ofNat_isAsciiDigit b1 g1
  obtain ⟨d6, e6⟩ := ofNat_isAsciiDigit c0 k0
  obtain ⟨d7, e7⟩ := ofNat_isAsciiDigit c1 k1
  have ey : digitVal (Char.ofNat (48 + a0)) * 1000 + digitVal (Char.ofNat (48 + a1)) * 100 +
      digitVal (Char.ofNat (48 + a2)) * 10 + digitVal (Char.ofNat (48 + a3)) =
      ((1000 * a0 + 100 * a1 + 10 * a2 + a3 : Nat) : Int) := by
    rw [e0, e1, e2, e3]; push_cast; ring
  have em : digitVal (Char.ofNat (48 + b0)) * 10 + digitVal (Char.ofNat (48 + b1)) =
      ((10 * b0 + b1 : Nat) : Int) := by
    rw [e4, e5]; push_cast; ring
  have ed : digitVal (Char.ofNat (48 + c0)) * 10 + digitVal (Char.ofNat (48 + c1)) =
      ((10 * c0 + c1 : Nat) : Int) := by
    rw [e6, e7]; push_cast; ring
  have hs : t.FormatDate.data =
      [Char.ofNat (48 + a0), Char.ofNat (48 + a1), Char.ofNat (48 + a2), Char.ofNat (48 + a3),
        '-', Char.ofNat (48 + b0), Char.ofNat (48 + b1), '-', Char.ofNat (48 + c0),
        Char.ofNat (48 + c1)] := by
    rw [FormatDate_of_Date t _ _ _ ht, appendInt_four _ _ _ _ _ h0 h1 h2 h3,
      appendInt_two _ _ _ g0 g1, appendInt_two _ _ _ k0 k1]
    simp
  have := ParseDate_of_fields _ _ _ _ _ _ _ _ _ hs d0 d1 d2 d3 d4 d5 d6 d7
    (by rw [ey, em, ed]; exact hv)
  rw [ey, em, ed] at this
  exact this

theorem ParseDate_FormatDate (t : Time) (y m d : Int) (ht : t.Date = (y, m, d))
    (hv : validDate y m d) (hy0 : 0 ≤ y) (hy1 : y ≤ 9999) :
    ParseDate t.FormatDate = (Date y m d 0 0 0 0, none) := by
  obtain ⟨v1, v2, v3, v4⟩ := hv
  have v5 := daysIn_le y m v1 v2
  have ey : y = ((1000 * (y.toNat / 1000) + 100 * (y.toNat / 100 % 10) + 10 * (y.toNat / 10 % 10)
      + y.toNat % 10 : Nat) : Int) := by omega
  have em : m = ((10 * (m.toNat / 10) + m.toNat % 10 : Nat) : Int) := by omega
  have ed : d = ((10 * (d.toNat / 10) + d.toNat % 10 : Nat) : Int) := by omega
  have hv' := (⟨v1, v2, v3, v4⟩ : validDate y m d)
  rw [ey, em, ed] at hv' ht ⊢
  exact ParseDate_FormatDate_digits t _ _ _ _ _ _ _ _ (by omega) (by omega) (by omega)
    (by omega) (by omega) (by omega) (by omega) (by omega) ht hv'

end time


namespace time

/-- The text of a date whose year is negative or has more than four digits
is not of the form YYYY-MM-DD. -/
theorem FormatDate_not_ISO (t : Time) (h : t.Date.1 < 0 ∨ 9999 < t.Date.1) :
    date.isISODate t.FormatDate = false := by
  rw [← Bool.not_eq_true, isISODate_iff]
  rintro ⟨y1, y2, y3, y4, m1, m2, d1, d2, hs, a1, -⟩
  rw [FormatDate_eq] at hs
  simp only [date.renderISO] at hs
  rcases h with hneg | hbig
  · rw [if_pos hneg] at hs
    simp only [List.cons_append, List.nil_append, List.cons.injEq] at hs
    obtain ⟨rfl, -⟩ := hs
    exact absurd a1 (by decide)
  · rw [if_neg (by omega)] at hs
    obtain ⟨hl, hdig⟩ := toDigits_long t.Date.1.natAbs (by omega)
    have hz : date.zeroPad 4 t.Date.1.natAbs = Nat.toDigits 10 t.Date.1.natAbs := by
      simp only [date.zeroPad]
      have : 4 - (Nat.toDigits 10 t.Date.1.natAbs).length = 0 := by omega
      rw [this]
      simp
    rw [hz] at hs
    have h4 : (Nat.toDigits 10 t.Date.1.natAbs)[4]? = some '-' := by
      have := congrArg (fun l => l[4]?) hs
      simp only [List.nil_append, List.append_assoc] at this
      rw [List.getElem?_append_left (by omega)] at this
      simpa using this
    have := hdig _ (List.getElem?_mem h4)
    exact absurd this (by decide)

end time

namespace date

open time

theorem String_ne_empty (d : Date) : d.String ≠ "" := by
  rw [String_eq, renderISO]
  intro h
  have := congrArg String.length h
  simp [String.length] at this

/-- The text of a date whose year has four digits is parsed, without error,
to a date with the same year, month and day. -/
theorem Parse_String_ok (d : Date) (h0 : 0 ≤ d.Year) (h1 : d.Year ≤ 9999) :
    (Parse d.String).2 = none ∧ (Parse d.String).1.Equal d = true := by
  have v := Time.Date_valid d.t
  rw [Date.Year, Time.Year_eq] at h0 h1
  have hp := ParseDate_FormatDate d.t d.t.Date.1 d.t.Date.2.1 d.t.Date.2.2 rfl v h0 h1
  have hr := Date_roundtrip _ _ _ v (Representable_of_four_digits _ _ _ v h0 h1)
  constructor
  · simp only [Parse, Date.String, hp, Option.map_none']
  · rw [Equal_iff_civil]
    simp only [Parse, Date.String, hp]
    exact hr

theorem Parse_String_error (d : Date) (h : d.Year < 0 ∨ 9999 < d.Year) :
    (Parse d.String).2 ≠ none := by
  rw [Date.Year, Time.Year_eq] at h
  have hn := FormatDate_not_ISO d.t h
  intro hp
  rw [Parse_ok_iff] at hp
  rw [Date.String, hn] at hp
  exact absurd hp (by decide)

set_option maxRecDepth 100000 in
theorem MarshalText_examples :
    (NewDate (-1) January 1).MarshalText = ("-0001-01-01", none) ∧
    (Parse "-0001-01-01").2 ≠ none ∧
    (NewDate 10000 January 1).MarshalText = ("10000-01-01", none) ∧
    (Parse "10000-01-01").2 ≠ none := by
  decide

/-- C19: for every date `d` built by `NewDate` and every prior value `r` of
the receiver, `UnmarshalText` of the bytes that `d.MarshalText()` returns
gives no error and leaves a date `Equal` to `d` if and only if
`0 <= d.Year() <= 9999`; for a date with a negative year or a year above 9999,
which `MarshalText` still renders (e.g. "-0001-01-01"), `UnmarshalText`
returns an error and leaves the zero date. -/
theorem MarshalText_roundtrip_iff (r : Date) (y m day : Int) :
    (((r.UnmarshalText (NewDate y m day).MarshalText.1).2 = none ∧
      (r.UnmarshalText (NewDate y m day).MarshalText.1).1.Equal (NewDate y m day) = true) ↔
      (0 ≤ (NewDate y m day).Year ∧ (NewDate y m day).Year ≤ 9999)) ∧
    ((NewDate y m day).Year < 0 ∨ 9999 < (NewDate y m day).Year →
      (r.UnmarshalText (NewDate y m day).MarshalText.1).2 ≠ none ∧
      (r.UnmarshalText (NewDate y m day).MarshalText.1).1 = Date.zero) ∧
    (NewDate y m day).MarshalText.2 = none ∧
    (NewDate (-1) January 1).MarshalText = ("-0001-01-01", none) ∧
    (r.UnmarshalText "-0001-01-01").2 ≠ none ∧
    (NewDate 10000 January 1).MarshalText = ("10000-01-01", none) ∧
    (r.UnmarshalText "10000-01-01").2 ≠ none := by
  have hu : r.UnmarshalText (NewDate y m day).MarshalText.1 = Parse (NewDate y m day).String := by
    have e : (NewDate y m day).MarshalText.1 = (NewDate y m day).String := by
      simp only [Date.MarshalText]
    rw [e]
    exact Scan_bytes_eq r (NewDate y m day).String (String_ne_empty _)
  have hbad : (NewDate y m day).Year < 0 ∨ 9999 < (NewDate y m day).Year →
      (r.UnmarshalText (NewDate y m day).MarshalText.1).2 ≠ none ∧
      (r.UnmarshalText (NewDate y m day).MarshalText.1).1 = Date.zero := by
    intro h
    rw [hu]
    have he := Parse_String_error _ h
    exact ⟨he, Parse_error_zero _ he⟩
  have x1 : (r.UnmarshalText "-0001-01-01").2 ≠ none := by
    have : r.UnmarshalText "-0001-01-01" = Parse "-0001-01-01" :=
      Scan_bytes_eq r _ (by decide)
    rw [this]; exact MarshalText_examples.2.1
  have x2 : (r.UnmarshalText "10000-01-01").2 ≠ none := by
    have : r.UnmarshalText "10000-01-01" = Parse "10000-01-01" :=
      Scan_bytes_eq r _ (by decide)
    rw [this]; exact MarshalText_examples.2.2.2
  refine ⟨⟨?_, ?_⟩, hbad, rfl, MarshalText_examples.1, x1, MarshalText_examples.2.2.1, x2⟩
  · rintro ⟨h1, -⟩
    by_contra hn
    exact (hbad (by omega)).1 h1
  · rintro ⟨h0, h1⟩
    rw [hu]
    exact Parse_String_ok _ h0 h1

end date
